import Mathlib

/-!
Shallow embedding of the Findata billing-analytics backend
(`backend/app/services/data_processor.py`, `analytics_engine.py`,
`payment_recovery.py` and the upload router), with theorems settling the
frozen claims about the specification.

Modelling conventions:
* monetary amounts are exact rationals (`ℚ`); Python's `round(x, n)` is
  modelled by round-half-even on the exact value;
* dates are day numbers (`ℤ`); nullable columns are `Option`;
* SQL result sets are Lean lists; a grouped query yields the distinct
  non-null keys in first-occurrence order (SQL leaves group order
  unspecified; the sorted outputs do not depend on this choice);
* Python truthiness of optional filter arguments is modelled explicitly
  (`none`, `0` and `""` are falsy).
-/

namespace Findata

/-- Round-half-even to an integer (the tie rule of Python 3 `round`). -/
def rhe (x : ℚ) : ℤ :=
  if x - (⌊x⌋ : ℚ) < 1/2 then ⌊x⌋
  else if 1/2 < x - (⌊x⌋ : ℚ) then ⌊x⌋ + 1
  else if ⌊x⌋ % 2 = 0 then ⌊x⌋ else ⌊x⌋ + 1

/-- Python `round(x, 2)`. -/
def round2 (x : ℚ) : ℚ := (rhe (x * 100) : ℚ) / 100

/-- Python `round(x, 1)`. -/
def round1 (x : ℚ) : ℚ := (rhe (x * 10) : ℚ) / 10

/-- Cent precision: `q` is an integer number of cents (the data model's
"signed decimal with 2-digit cent precision"). -/
def Cent (q : ℚ) : Prop := (q * 100).den = 1

instance (q : ℚ) : Decidable (Cent q) := by unfold Cent; infer_instance

/-- Sum of a rational-valued field over a list of rows. -/
def qsum {α : Type} (f : α → ℚ) (l : List α) : ℚ := (l.map f).sum

/-- Python truthiness of a nullable integer (`None` and `0` are falsy). -/
def truthyI : Option ℤ → Bool
  | none => false
  | some n => n != 0

/-- Python truthiness of a nullable string (`None` and `""` are falsy). -/
def truthyS : Option String → Bool
  | none => false
  | some s => s != ""

/-- First-occurrence deduplication, with a `seen` accumulator (used to model
`set(...)` / `DISTINCT` key collection in first-occurrence order). -/
def dedupFOAux {α : Type} [DecidableEq α] (seen : List α) : List α → List α
  | [] => []
  | x :: xs => if x ∈ seen then dedupFOAux seen xs else x :: dedupFOAux (x :: seen) xs

/-- Distinct elements of a list, first occurrence kept, order preserved. -/
def dedupFO {α : Type} [DecidableEq α] (l : List α) : List α := dedupFOAux [] l

/-!
## Data model

`Tx` embeds `models/transaction.py` (the columns the analytical core reads;
purely descriptive columns the core never touches — visit numbers, modifiers,
diagnosis codes, flags — are omitted).  `Summary` embeds
`models/procedure.py` (`ProcedureSummary`); its `status` column defaults to
`"pending"`.
-/

structure Tx where
  procedure_id : String
  chart_number : Option ℤ
  date_of_service : Option ℤ
  date_of_entry : Option ℤ
  date_of_deposit : Option ℤ
  charges : ℚ
  patient_payments : ℚ
  insurance_payments : ℚ
  total_payments : ℚ
  adjustments : ℚ
  surgery_type : Option String
  type_code : Option String
  billing_category : Option String
  billing_subcategory : Option String
  visit_primary_carrier : Option String
  visit_secondary_carrier : Option String
  facility_name : Option String
  provider_profile : Option String
deriving DecidableEq

/-- Lifecycle status; constructors model the strings `"pending"`,
`"partial"`, `"collected"`, `"written_off"`. -/
inductive Status where
  | pending
  | partialPaid
  | collected
  | writtenOff
deriving DecidableEq

structure Summary where
  procedure_id : String
  chart_number : Option ℤ
  date_of_service : Option ℤ
  surgery_type : Option String
  type_code : Option String
  primary_carrier : Option String
  secondary_carrier : Option String
  facility_name : Option String
  provider_profile : Option String
  total_charges : ℚ
  total_payments : ℚ
  total_adjustments : ℚ
  patient_payments : ℚ
  insurance_payments : ℚ
  pro_fee_charges : ℚ
  pro_fee_payments : ℚ
  facility_fee_charges : ℚ
  facility_fee_payments : ℚ
  first_charge_date : Option ℤ
  first_payment_date : Option ℤ
  last_payment_date : Option ℤ
  days_to_first_payment : Option ℤ
  collection_rate : ℚ
  status : Status
deriving DecidableEq

/-- A freshly constructed `ProcedureSummary(procedure_id=...)` row: every
other column at its model default (0 / NULL / `"pending"`). -/
def Summary.init (pid : String) : Summary where
  procedure_id := pid
  chart_number := none
  date_of_service := none
  surgery_type := none
  type_code := none
  primary_carrier := none
  secondary_carrier := none
  facility_name := none
  provider_profile := none
  total_charges := 0
  total_payments := 0
  total_adjustments := 0
  patient_payments := 0
  insurance_payments := 0
  pro_fee_charges := 0
  pro_fee_payments := 0
  facility_fee_charges := 0
  facility_fee_payments := 0
  first_charge_date := none
  first_payment_date := none
  last_payment_date := none
  days_to_first_payment := none
  collection_rate := 0
  status := .pending

/-!
## Procedure Aggregator (`DataProcessorService._build_procedure_summaries`)
-/

/-- A conditionally assigned field: the Python code assigns
`summary.field = new` only inside an `if`, otherwise the previous value
persists. -/
def keepOr (new : Option ℤ) (old : Option ℤ) : Option ℤ :=
  match new with
  | some d => some d
  | none => old

/-- `days_to_first_payment`: assigned only when both the (just updated)
first payment date and date of service are present. -/
def dtfpOf (fpd dos : Option ℤ) (old : Option ℤ) : Option ℤ :=
  match fpd, dos with
  | some fp, some d => some (fp - d)
  | _, _ => old

/-- The status priority chain of `_build_procedure_summaries`
(lines 182–189), entered only when `total_charges > 0`. -/
def statusChain (tc tp ta : ℚ) : Status :=
  if tp ≥ tc * (95/100) then .collected
  else if 0 < tp then .partialPaid
  else if ta ≥ tc * (95/100) then .writtenOff
  else .pending

/-- Status assignment: the chain when `total_charges > 0`, otherwise the
previous value persists (lines 181–189). -/
def statusOf (tc tp ta : ℚ) (old : Status) : Status :=
  if 0 < tc then statusChain tc tp ta else old

/-- One aggregation pass of `_build_procedure_summaries` for a single
procedure group `first :: rest` (pandas groups are nonempty; `first` is
`group.iloc[0]`), updating summary `s` in place. -/
def updateSummary (s : Summary) (first : Tx) (rest : List Tx) : Summary :=
  let group := first :: rest
  let tc := qsum Tx.charges group
  let tp := qsum Tx.total_payments group
  let ta := qsum Tx.adjustments group
  let proFee := group.filter (fun t => t.billing_category == some "Pro Fee")
  let facFee := group.filter (fun t => t.billing_category == some "Facility Fee")
  let chargeDates := (group.filter (fun t => 0 < t.charges)).filterMap Tx.date_of_entry
  let payDates := (group.filter (fun t => 0 < t.total_payments)).filterMap Tx.date_of_deposit
  let fpd := keepOr payDates.min? s.first_payment_date
  { s with
    chart_number := first.chart_number
    date_of_service := first.date_of_service
    surgery_type := first.surgery_type
    type_code := first.type_code
    primary_carrier := first.visit_primary_carrier
    secondary_carrier := first.visit_secondary_carrier
    facility_name := first.facility_name
    provider_profile := first.provider_profile
    total_charges := tc
    total_payments := tp
    total_adjustments := ta
    patient_payments := qsum Tx.patient_payments group
    insurance_payments := qsum Tx.insurance_payments group
    pro_fee_charges := qsum Tx.charges proFee
    pro_fee_payments := qsum Tx.total_payments proFee
    facility_fee_charges := qsum Tx.charges facFee
    facility_fee_payments := qsum Tx.total_payments facFee
    first_charge_date := keepOr chargeDates.min? s.first_charge_date
    first_payment_date := fpd
    last_payment_date := keepOr payDates.max? s.last_payment_date
    days_to_first_payment := dtfpOf fpd first.date_of_service s.days_to_first_payment
    collection_rate := if 0 < tc then round2 (tp / tc * 100) else 0
    status := statusOf tc tp ta s.status }

/-- Ascending insertion into a sorted list of strings. -/
def insertStr (x : String) : List String → List String
  | [] => [x]
  | y :: ys => if x ≤ y then x :: y :: ys else y :: insertStr x ys

/-- Ascending insertion sort (pandas `groupby` sorts group keys). -/
def sortStr : List String → List String
  | [] => []
  | x :: xs => insertStr x (sortStr xs)

/-- The group keys of `df.groupby("procedure_id")`: distinct procedure ids,
ascending. -/
def procIds (df : List Tx) : List String :=
  sortStr (dedupFO (df.map Tx.procedure_id))

/-- The rows of one procedure group, in dataframe order. -/
def groupRows (pid : String) (df : List Tx) : List Tx :=
  df.filter (fun t => t.procedure_id == pid)

/-- Replace the first element satisfying `p` (the row found by
`query(...).first()`), leaving the rest of the table unchanged. -/
def updateFirst (p : Summary → Bool) (f : Summary → Summary) : List Summary → List Summary
  | [] => []
  | s :: ss => if p s then f s :: ss else s :: updateFirst p f ss

/-- Process one procedure-id group: update the existing summary in place if
one exists, otherwise append a new row built from `Summary.init`. -/
def stepSummary (df : List Tx) (st : List Summary) (pid : String) : List Summary :=
  match groupRows pid df with
  | [] => st
  | first :: rest =>
    if (st.find? (fun s => s.procedure_id == pid)).isSome then
      updateFirst (fun s => s.procedure_id == pid) (fun s => updateSummary s first rest) st
    else
      st ++ [updateSummary (Summary.init pid) first rest]

/-- `_build_procedure_summaries`: fold the per-group upsert over all group
keys, starting from the current `procedure_summary` table `st`. -/
def buildSummaries (df : List Tx) (st : List Summary) : List Summary :=
  (procIds df).foldl (stepSummary df) st

/-- Every row of a summary table built by the aggregator from an empty table
is the aggregate of one dataframe group over a fresh summary. -/
def GoodFor (df : List Tx) (s : Summary) : Prop :=
  ∃ pid first rest, groupRows pid df = first :: rest ∧
    s = updateSummary (Summary.init pid) first rest

/-- A minimal transaction fixture: only procedure id and the three headline
amounts vary, every other column is NULL/zero. -/
def mkTx (pid : String) (c p a : ℚ) : Tx where
  procedure_id := pid
  chart_number := none
  date_of_service := none
  date_of_entry := none
  date_of_deposit := none
  charges := c
  patient_payments := 0
  insurance_payments := 0
  total_payments := p
  adjustments := a
  surgery_type := none
  type_code := none
  billing_category := none
  billing_subcategory := none
  visit_primary_carrier := none
  visit_secondary_carrier := none
  facility_name := none
  provider_profile := none

/-- The status rule exactly as the specification words it (claim C1):
`total_charges == 0` leaves the status unset, any nonzero `total_charges`
enters the priority chain.  Written from the spec only, to be compared with
the code's `statusOf`. -/
def specStatusRule (tc tp ta : ℚ) : Option Status :=
  if tc = 0 then none
  else if tp ≥ tc * (95/100) then some .collected
  else if 0 < tp then some .partialPaid
  else if ta ≥ tc * (95/100) then some .writtenOff
  else some .pending

/-!
## Dynamic grouping engine (`AnalyticsEngine.get_dynamic_matrix`)

The five recognised dimensions.  Validation ("Invalid dimension") is
absorbed into the type: a `Dim` is always recognised.
-/

inductive Dim where
  | surgery_type
  | carrier
  | billing_subcategory
  | patient
  | procedure_id
deriving DecidableEq

/-- A grouping value: string-keyed columns or the integer `chart_number`. -/
inductive GKey where
  | str (s : String)
  | int (n : ℤ)
deriving DecidableEq

/-- The grouping column of a dimension on the `Transaction` table
(`dimension_config` of the transaction path). -/
def txKey : Dim → Tx → Option GKey
  | .surgery_type, t => t.type_code.map .str
  | .carrier, t => t.visit_primary_carrier.map .str
  | .billing_subcategory, t => t.billing_subcategory.map .str
  | .patient, t => t.chart_number.map .int
  | .procedure_id, t => some (.str t.procedure_id)

/-- The grouping column of a dimension on the `ProcedureSummary` table
(`dimension_config` of the summary path; `billing_subcategory` has column
`None` there and is never reached, since its presence in the request forces
the transaction path). -/
def sumKey : Dim → Summary → Option GKey
  | .surgery_type, s => s.type_code.map .str
  | .carrier, s => s.primary_carrier.map .str
  | .billing_subcategory, _ => none
  | .patient, s => s.chart_number.map .int
  | .procedure_id, s => some (.str s.procedure_id)

/-- SQL date-range filter: `NULL` dates fail any bound; an absent bound
passes everything. -/
def dateOk (d : Option ℤ) (dfrom dto : Option ℤ) : Bool :=
  (match dfrom, d with
    | none, _ => true
    | some _, none => false
    | some a, some x => a ≤ x) &&
  (match dto, d with
    | none, _ => true
    | some _, none => false
    | some b, some x => x ≤ b)

/-- One node of the dynamic matrix (`item` in `build_level`).  Display-only
fields (`type_name`, `first_visit`, `last_visit`) are omitted: no claim
depends on them and they do not feed back into the computation. -/
inductive MNode where
  | mk (key : GKey) (procedure_count : ℕ)
      (total_charges total_payments collection_rate : ℚ)
      (avg_days_to_payment : Option ℚ) (children : List MNode)

def MNode.key : MNode → GKey
  | .mk k _ _ _ _ _ _ => k

def MNode.procedure_count : MNode → ℕ
  | .mk _ n _ _ _ _ _ => n

def MNode.total_charges : MNode → ℚ
  | .mk _ _ tc _ _ _ _ => tc

def MNode.total_payments : MNode → ℚ
  | .mk _ _ _ tp _ _ _ => tp

def MNode.collection_rate : MNode → ℚ
  | .mk _ _ _ _ cr _ _ => cr

def MNode.avg_days_to_payment : MNode → Option ℚ
  | .mk _ _ _ _ _ ad _ => ad

def MNode.children : MNode → List MNode
  | .mk _ _ _ _ _ _ ch => ch

/-- `results.sort(key=lambda x: x['total_charges'], reverse=True)`:
stable descending sort by (rounded) total charges. -/
def sortNodes (l : List MNode) : List MNode :=
  l.mergeSort fun a b => decide (b.total_charges ≤ a.total_charges)

/-- Table-specific pieces of `build_level`: grouping columns, the two summed
money columns, the procedure-count aggregate and the average-days
aggregate. -/
structure TableCfg (α : Type) where
  key : Dim → α → Option GKey
  charges : α → ℚ
  payments : α → ℚ
  pcount : List α → ℕ
  avgDays : List α → Option ℚ

/-- Python truthiness applied to the SQL `AVG` of `days_to_first_payment`
(`round(float(row.avg_days), 1) if row.avg_days else None`): `NULL` (no
non-null inputs) and an exact zero average both yield `None`. -/
def avgDaysTruthy (ds : List ℤ) : Option ℚ :=
  match ds with
  | [] => none
  | d :: rest =>
    let avg : ℚ := (((d :: rest).map (fun x => (x : ℚ))).sum) / ((d :: rest).length : ℚ)
    if avg = 0 then none else some (round1 avg)

/-- `build_level`: one grouped aggregate per level, recursing into the rows
of each group.  `rows` is the population already restricted by the date
range and every ancestor equality filter (filters compose, so restricting
the row set is exactly the code's re-query with inherited filters). -/
def buildLevel {α : Type} (cfg : TableCfg α) : List Dim → List α → List MNode
  | [], _ => []
  | d :: rest, rows =>
    let keys := dedupFO ((rows.filter (fun r => (cfg.key d r).isSome)).filterMap (cfg.key d))
    let nodes := keys.map fun v =>
      let sub := rows.filter fun r => cfg.key d r == some v
      let tc := qsum cfg.charges sub
      let tp := qsum cfg.payments sub
      MNode.mk v (cfg.pcount sub) (round2 tc) (round2 tp)
        (round2 (if 0 < tc then tp / tc * 100 else 0))
        (cfg.avgDays sub)
        (buildLevel cfg rest sub)
    sortNodes nodes

/-- Transaction-path configuration: distinct procedure ids for the count,
no average-days metric. -/
def txCfg : TableCfg Tx where
  key := txKey
  charges := Tx.charges
  payments := Tx.total_payments
  pcount := fun rows => (dedupFO (rows.map Tx.procedure_id)).length
  avgDays := fun _ => none

/-- Summary-path configuration: row count and truthy average days. -/
def sumCfg : TableCfg Summary where
  key := sumKey
  charges := Summary.total_charges
  payments := Summary.total_payments
  pcount := List.length
  avgDays := fun rows => avgDaysTruthy (rows.filterMap Summary.days_to_first_payment)

/-- The always-present unconditioned `summary` block. -/
structure SummaryBlock where
  total_procedures : ℕ
  total_charges : ℚ
  total_payments : ℚ
  collection_rate : ℚ
deriving DecidableEq

structure MatrixResult where
  data : List MNode
  summary : SummaryBlock

/-- `get_dynamic_matrix`.  An empty `group_by` returns the bare `[]` of the
Python code, modelled as `none`; otherwise the whole query runs against the
`Transaction` table iff `billing_subcategory` occurs anywhere in the
dimension list. -/
def get_dynamic_matrix (txs : List Tx) (sums : List Summary) (gb : List Dim)
    (dfrom dto : Option ℤ) : Option MatrixResult :=
  if gb = [] then none
  else some <|
    if Dim.billing_subcategory ∈ gb then
      let rows := txs.filter fun t => dateOk t.date_of_service dfrom dto
      let tc := qsum Tx.charges rows
      let tp := qsum Tx.total_payments rows
      { data := buildLevel txCfg gb rows
        summary :=
          { total_procedures := (dedupFO (rows.map Tx.procedure_id)).length
            total_charges := round2 tc
            total_payments := round2 tp
            collection_rate := round2 (if 0 < tc then tp / tc * 100 else 0) } }
    else
      let rows := sums.filter fun s => dateOk s.date_of_service dfrom dto
      let tc := qsum Summary.total_charges rows
      let tp := qsum Summary.total_payments rows
      { data := buildLevel sumCfg gb rows
        summary :=
          { total_procedures := rows.length
            total_charges := round2 tc
            total_payments := round2 tp
            collection_rate := round2 (if 0 < tc then tp / tc * 100 else 0) } }

/-!
### Tree traversal predicates and sums
-/

/-- Every node of the forest (all depths) has a `null`
`avg_days_to_payment`. -/
def allAvgNone : List MNode → Prop
  | [] => True
  | .mk _ _ _ _ _ ad ch :: rest => ad = none ∧ allAvgNone ch ∧ allAvgNone rest

/-- Every node's `collection_rate` is `round2(payments/charges*100)` when its
reported `total_charges` is positive, and `0` otherwise. -/
def allCRInv : List MNode → Prop
  | [] => True
  | .mk _ _ tc tp cr _ ch :: rest =>
    (cr = if 0 < tc then round2 (tp / tc * 100) else 0) ∧ allCRInv ch ∧ allCRInv rest

/-- Siblings descending by reported total charges. -/
def SortedDesc (l : List MNode) : Prop :=
  l.Pairwise fun a b => b.total_charges ≤ a.total_charges

/-- Every child list, at all depths, is sorted descending. -/
def deepSorted : List MNode → Prop
  | [] => True
  | .mk _ _ _ _ _ _ ch :: rest => (SortedDesc ch ∧ deepSorted ch) ∧ deepSorted rest

/-- This level and every level below it sorted descending by charges. -/
def levelsSorted (l : List MNode) : Prop := SortedDesc l ∧ deepSorted l

/-- Total charges over the leaf nodes of a forest (the chargeable quantity of
claim C5's conservation). -/
def leafChargeSum : List MNode → ℚ
  | [] => 0
  | .mk _ _ tc _ _ _ [] :: rest => tc + leafChargeSum rest
  | .mk _ _ _ _ _ _ (c :: cs) :: rest => leafChargeSum (c :: cs) + leafChargeSum rest

/-- The leaf-charge contribution of one node. -/
def nodeLeafCharge (n : MNode) : ℚ :=
  match n with
  | .mk _ _ tc _ _ _ [] => tc
  | .mk _ _ _ _ _ _ (c :: cs) => leafChargeSum (c :: cs)

/-!
### `build_level` properties
-/

/-- The distinct non-null keys of the current dimension over the current
row population. -/
def levelKeys {α : Type} (cfg : TableCfg α) (d : Dim) (rows : List α) : List GKey :=
  dedupFO ((rows.filter fun r => (cfg.key d r).isSome).filterMap (cfg.key d))

/-- The node built for one key value. -/
def nodeFor {α : Type} (cfg : TableCfg α) (d : Dim) (rest : List Dim)
    (rows : List α) (v : GKey) : MNode :=
  let sub := rows.filter fun r => cfg.key d r == some v
  let tc := qsum cfg.charges sub
  let tp := qsum cfg.payments sub
  MNode.mk v (cfg.pcount sub) (round2 tc) (round2 tp)
    (round2 (if 0 < tc then tp / tc * 100 else 0)) (cfg.avgDays sub)
    (buildLevel cfg rest sub)

/-- On the transaction path every node's `procedure_count` is the number of
distinct procedure identifiers among its rows, with children computed from
exactly the rows matching the node's key — recursively at every depth. -/
def countsDistinct : List Dim → List Tx → List MNode → Prop
  | [], _, nodes => nodes = []
  | d :: rest, rows, nodes =>
    ∀ n ∈ nodes,
      n.procedure_count
          = (dedupFO ((rows.filter fun r => txKey d r == some n.key).map Tx.procedure_id)).length
        ∧ countsDistinct rest (rows.filter fun r => txKey d r == some n.key) n.children

/-- The grouped tree of a dynamic-matrix response (`[]` when the request
itself returns the bare empty list). -/
def matrixData (txs : List Tx) (sums : List Summary) (gb : List Dim)
    (dfrom dto : Option ℤ) : List MNode :=
  ((get_dynamic_matrix txs sums gb dfrom dto).map MatrixResult.data).getD []

/-- The global summary block of a dynamic-matrix response. -/
def matrixSummary (txs : List Tx) (sums : List Summary) (gb : List Dim)
    (dfrom dto : Option ℤ) : Option SummaryBlock :=
  (get_dynamic_matrix txs sums gb dfrom dto).map MatrixResult.summary

/-- A summary fixture: defaults except the two headline totals. -/
def mkSum (pid : String) (tc tp : ℚ) : Summary :=
  { Summary.init pid with total_charges := tc, total_payments := tp }

/-!
### C6: collection rates
-/

/-- The collection-rate invariant on a summary row. -/
def crInv (s : Summary) : Prop :=
  s.collection_rate
    = if 0 < s.total_charges then round2 (s.total_payments / s.total_charges * 100) else 0

/-!
## Payment Recovery Engine (`PaymentRecoveryService`)
-/

/-- One horizon's entry (`{"percent": ..., "amount": ..., "procedures": ...}`). -/
structure Horizon where
  percent : ℚ
  amount : ℚ
  procedures : ℕ
deriving DecidableEq

structure RecoveryResult where
  recovery_1_month : Horizon
  recovery_3_month : Horizon
  recovery_6_month : Horizon
  recovery_12_month : Horizon
  overall_collection_rate : ℚ
  total_charges : ℚ
  total_payments : ℚ
deriving DecidableEq

/-- The cohort filter of `calculate_recovery_rates` (Python truthiness on
`patient_id`, `type_code`, `carrier`; date objects are always truthy). -/
def recoveryCohort (sums : List Summary) (dfrom dto : Option ℤ)
    (patientId : Option ℤ) (typeCode carrier : Option String) : List Summary :=
  sums.filter fun s =>
    dateOk s.date_of_service dfrom dto &&
    (if truthyI patientId then s.chart_number == patientId else true) &&
    (if truthyS typeCode then s.type_code == typeCode else true) &&
    (if truthyS carrier then s.primary_carrier == carrier else true)

/-- `_get_payments_within_days`: sum of positive-payment transactions of the
procedure deposited no later than `min(dos + days, today)`. -/
def windowPayments (txs : List Tx) (pid : String) (dos days today : ℤ) : ℚ :=
  qsum Tx.total_payments (txs.filter fun t =>
    t.procedure_id == pid &&
    (match t.date_of_deposit with
      | some dep => decide (dep ≤ min (dos + days) today)
      | none => false) &&
    decide (0 < t.total_payments))

/-- The loop of `_calc_payment_velocity`: cohort members with a null
`date_of_service` are skipped (`continue`). -/
def cohortWindowSum (txs : List Tx) (procs : List Summary) (days today : ℤ) : ℚ :=
  (procs.filterMap fun p =>
    p.date_of_service.map fun dos => windowPayments txs p.procedure_id dos days today).sum

/-- `_calc_payment_velocity`. -/
def velocity (txs : List Tx) (procs : List Summary) (days : ℤ)
    (totalCharges : ℚ) (today : ℤ) : Horizon :=
  let pw := cohortWindowSum txs procs days today
  let percent := if 0 < totalCharges then pw / totalCharges * 100 else 0
  { percent := round2 (min percent 100)
    amount := round2 pw
    procedures := procs.length }

/-- `calculate_recovery_rates`. -/
def calculate_recovery_rates (txs : List Tx) (sums : List Summary)
    (dfrom dto : Option ℤ) (patientId : Option ℤ) (typeCode carrier : Option String)
    (today : ℤ) : RecoveryResult :=
  let procs := recoveryCohort sums dfrom dto patientId typeCode carrier
  if procs = [] then
    ⟨⟨0, 0, 0⟩, ⟨0, 0, 0⟩, ⟨0, 0, 0⟩, ⟨0, 0, 0⟩, 0, 0, 0⟩
  else
    let tc := qsum Summary.total_charges procs
    let tp := qsum Summary.total_payments procs
    { recovery_1_month := velocity txs procs 30 tc today
      recovery_3_month := velocity txs procs 90 tc today
      recovery_6_month := velocity txs procs 180 tc today
      recovery_12_month := velocity txs procs 365 tc today
      overall_collection_rate := round2 (if 0 < tc then tp / tc * 100 else 0)
      total_charges := round2 tc
      total_payments := round2 tp }

/-!
## Days-to-payment distribution (`get_days_to_payment_distribution`)
-/

/-- Ascending insertion into a sorted list of integers. -/
def insertInt (x : ℤ) : List ℤ → List ℤ
  | [] => [x]
  | y :: ys => if x ≤ y then x :: y :: ys else y :: insertInt x ys

/-- `days_list.sort()`: ascending sort (on integers the sorted list is the
unique sorted permutation, so insertion sort models Python's sort exactly). -/
def sortInt : List ℤ → List ℤ
  | [] => []
  | x :: xs => insertInt x (sortInt xs)

structure DistBucket where
  label : String
  count : ℕ
  percent : ℚ
deriving DecidableEq

structure DistResult where
  avg_days : ℚ
  median_days : ℤ
  min_days : ℤ
  max_days : ℤ
  distribution : List DistBucket
deriving DecidableEq

/-- The fixed bucket bounds and labels. -/
def distBuckets : List (ℤ × ℤ × String) :=
  [(0, 30, "0-30 days"), (31, 60, "31-60 days"), (61, 90, "61-90 days"),
    (91, 120, "91-120 days"), (121, 180, "121-180 days"), (181, 365, "181-365 days"),
    (366, 99999, "365+ days")]

/-- The filtered population of the distribution query: non-null
`days_to_first_payment` plus the common filters. -/
def distRows (sums : List Summary) (dfrom dto : Option ℤ)
    (patientId : Option ℤ) (typeCode carrier : Option String) : List Summary :=
  sums.filter fun s =>
    s.days_to_first_payment.isSome &&
    dateOk s.date_of_service dfrom dto &&
    (if truthyI patientId then s.chart_number == patientId else true) &&
    (if truthyS typeCode then s.type_code == typeCode else true) &&
    (if truthyS carrier then s.primary_carrier == carrier else true)

/-- `get_days_to_payment_distribution`; `none` models the empty-population
early return. -/
def get_days_to_payment_distribution (sums : List Summary) (dfrom dto : Option ℤ)
    (patientId : Option ℤ) (typeCode carrier : Option String) : Option DistResult :=
  match distRows sums dfrom dto patientId typeCode carrier with
  | [] => none
  | r :: rs =>
    let days := sortInt ((r :: rs).filterMap Summary.days_to_first_payment)
    some
      { avg_days := round1 (((days.map fun d => (d : ℚ)).sum) / (days.length : ℚ))
        median_days := days.getD (days.length / 2) 0
        min_days := (days.min?).getD 0
        max_days := (days.max?).getD 0
        distribution := distBuckets.map fun b =>
          { label := b.2.2
            count := (days.filter fun d => b.1 ≤ d && d ≤ b.2.1).length
            percent := if 0 < days.length
              then round1 (((days.filter fun d => b.1 ≤ d && d ≤ b.2.1).length : ℚ)
                / (days.length : ℚ) * 100)
              else 0 } }

/-- A summary fixture carrying only a days-to-first-payment value. -/
def mkSumDays (pid : String) (d : ℤ) : Summary :=
  { Summary.init pid with days_to_first_payment := some d }

/-- Stable descending sort by a charges projection (Python
`sort(key=..., reverse=True)` / `sorted(..., reverse=True)`). -/
def sortByCharges {α : Type} (f : α → ℚ) (l : List α) : List α :=
  l.mergeSort fun a b => decide (f b ≤ f a)

/-- One row of `get_by_surgery_type`. -/
structure SurgRow where
  type_code : Option String
  surgery_type : Option String
  procedure_count : ℕ
  total_charges : ℚ
  total_payments : ℚ
  collection_rate : ℚ
  avg_days_to_payment : Option ℚ
deriving DecidableEq

/-- `get_by_surgery_type`: grouped by `(type_code, surgery_type)`; the rows
are returned in group order — the function applies NO sort. -/
def get_by_surgery_type (sums : List Summary) (dfrom dto : Option ℤ)
    (patientId : Option ℤ) (carrier : Option String) : List SurgRow :=
  let rows := sums.filter fun s =>
    dateOk s.date_of_service dfrom dto &&
    (if truthyI patientId then s.chart_number == patientId else true) &&
    (if truthyS carrier then s.primary_carrier == carrier else true)
  (dedupFO (rows.map fun s => (s.type_code, s.surgery_type))).map fun k =>
    let sub := rows.filter fun s => (s.type_code, s.surgery_type) == k
    let tc := qsum Summary.total_charges sub
    let tp := qsum Summary.total_payments sub
    { type_code := k.1
      surgery_type := k.2
      procedure_count := sub.length
      total_charges := round2 tc
      total_payments := round2 tp
      collection_rate := round2 (if 0 < tc then tp / tc * 100 else 0)
      avg_days_to_payment := avgDaysTruthy (sub.filterMap Summary.days_to_first_payment) }

/-- One row of `get_by_insurance`. -/
structure InsRow where
  carrier : String
  procedure_count : ℕ
  total_charges : ℚ
  total_payments : ℚ
  collection_rate : ℚ
  avg_days_to_payment : Option ℚ
deriving DecidableEq

/-- `get_by_insurance`: grouped by non-null `primary_carrier`, then
`sorted(..., key=total_charges, reverse=True)`. -/
def get_by_insurance (sums : List Summary) (dfrom dto : Option ℤ)
    (patientId : Option ℤ) (typeCode : Option String) : List InsRow :=
  let rows := sums.filter fun s =>
    s.primary_carrier.isSome &&
    dateOk s.date_of_service dfrom dto &&
    (if truthyI patientId then s.chart_number == patientId else true) &&
    (if truthyS typeCode then s.type_code == typeCode else true)
  sortByCharges InsRow.total_charges <|
    (dedupFO (rows.filterMap Summary.primary_carrier)).map fun c =>
      let sub := rows.filter fun s => s.primary_carrier == some c
      let tc := qsum Summary.total_charges sub
      let tp := qsum Summary.total_payments sub
      { carrier := c
        procedure_count := sub.length
        total_charges := round2 tc
        total_payments := round2 tp
        collection_rate := round2 (if 0 < tc then tp / tc * 100 else 0)
        avg_days_to_payment := avgDaysTruthy (sub.filterMap Summary.days_to_first_payment) }

/-- One row of `get_by_billing_category`. -/
structure BillRow where
  billing_category : String
  billing_subcategory : Option String
  total_charges : ℚ
  total_payments : ℚ
  collection_rate : ℚ
deriving DecidableEq

/-- `get_by_billing_category`: over the `Transaction` table, grouped by
`(billing_category, billing_subcategory)` with non-null category; returned
in group order — NO sort. -/
def get_by_billing_category (txs : List Tx) (dfrom dto : Option ℤ)
    (patientId : Option ℤ) (typeCode carrier : Option String) : List BillRow :=
  let rows := txs.filter fun t =>
    t.billing_category.isSome &&
    dateOk t.date_of_service dfrom dto &&
    (if truthyI patientId then t.chart_number == patientId else true) &&
    (if truthyS typeCode then t.type_code == typeCode else true) &&
    (if truthyS carrier then t.visit_primary_carrier == carrier else true)
  (dedupFO (rows.filterMap fun t =>
      t.billing_category.map fun c => (c, t.billing_subcategory))).map fun k =>
    let sub := rows.filter fun t =>
      t.billing_category == some k.1 && t.billing_subcategory == k.2
    let tc := qsum Tx.charges sub
    let tp := qsum Tx.total_payments sub
    { billing_category := k.1
      billing_subcategory := k.2
      total_charges := round2 tc
      total_payments := round2 tp
      collection_rate := round2 (if 0 < tc then tp / tc * 100 else 0) }

/-!
## Fixed three-level matrices

Display-only fields (surgery-type display names, visit dates) are omitted;
each level carries exactly the metrics and the child list.
-/

structure BCRow where
  category : String
  charges : ℚ
  payments : ℚ
  collection_rate : ℚ
deriving DecidableEq

structure M1Carrier where
  carrier : String
  procedure_count : ℕ
  total_charges : ℚ
  total_payments : ℚ
  collection_rate : ℚ
  avg_days_to_payment : Option ℚ
  billing_categories : List BCRow
deriving DecidableEq

structure M1Type where
  type_code : String
  procedure_count : ℕ
  total_charges : ℚ
  total_payments : ℚ
  collection_rate : ℚ
  avg_days_to_payment : Option ℚ
  carriers : List M1Carrier
deriving DecidableEq

/-- `get_surgery_insurance_matrix`: surgery type → carrier → billing
subcategory (the third level reads the `Transaction` table).  The top-level
key set is `set(tc for tc, st in distinct_pairs if tc)` — Python truthiness
drops `None` and `""`; set order is arbitrary, modelled as first-occurrence
(the final sort makes it immaterial). -/
def get_surgery_insurance_matrix (sums : List Summary) (txs : List Tx)
    (dfrom dto : Option ℤ) : List M1Type :=
  let typeCodes := dedupFO
    ((dedupFO (sums.map fun s => (s.type_code, s.surgery_type))).filterMap fun p =>
      match p.1 with
      | some tc => if tc = "" then none else some tc
      | none => none)
  sortByCharges M1Type.total_charges <| typeCodes.map fun tc =>
    let trows := sums.filter fun s =>
      s.type_code == some tc && dateOk s.date_of_service dfrom dto
    let ttc := qsum Summary.total_charges trows
    let ttp := qsum Summary.total_payments trows
    let crows0 := sums.filter fun s =>
      s.type_code == some tc && s.primary_carrier.isSome &&
      dateOk s.date_of_service dfrom dto
    let carriers := sortByCharges M1Carrier.total_charges <|
      (dedupFO (crows0.filterMap Summary.primary_carrier)).map fun c =>
        let crows := crows0.filter fun s => s.primary_carrier == some c
        let ctc := qsum Summary.total_charges crows
        let ctp := qsum Summary.total_payments crows
        let brows0 := txs.filter fun t =>
          t.type_code == some tc && t.visit_primary_carrier == some c &&
          t.billing_subcategory.isSome && dateOk t.date_of_service dfrom dto
        let bcs := sortByCharges BCRow.charges <|
          (dedupFO (brows0.filterMap Tx.billing_subcategory)).map fun bc =>
            let brows := brows0.filter fun t => t.billing_subcategory == some bc
            let btc := qsum Tx.charges brows
            let btp := qsum Tx.total_payments brows
            ⟨bc, round2 btc, round2 btp, round2 (if 0 < btc then btp / btc * 100 else 0)⟩
        ⟨c, crows.length, round2 ctc, round2 ctp,
          round2 (if 0 < ctc then ctp / ctc * 100 else 0),
          avgDaysTruthy (crows.filterMap Summary.days_to_first_payment), bcs⟩
    ⟨tc, trows.length, round2 ttc, round2 ttp,
      round2 (if 0 < ttc then ttp / ttc * 100 else 0),
      avgDaysTruthy (trows.filterMap Summary.days_to_first_payment), carriers⟩

structure M2Carrier where
  carrier : String
  procedure_count : ℕ
  total_charges : ℚ
  total_payments : ℚ
  collection_rate : ℚ
  avg_days_to_payment : Option ℚ
deriving DecidableEq

structure M2Type where
  type_code : String
  procedure_count : ℕ
  total_charges : ℚ
  total_payments : ℚ
  collection_rate : ℚ
  avg_days_to_payment : Option ℚ
  carriers : List M2Carrier
deriving DecidableEq

structure M2Patient where
  chart_number : ℤ
  procedure_count : ℕ
  total_charges : ℚ
  total_payments : ℚ
  collection_rate : ℚ
  surgery_types : List M2Type
deriving DecidableEq

/-- `get_patient_surgery_insurance_matrix`: patient → surgery type →
carrier. -/
def get_patient_surgery_insurance_matrix (sums : List Summary)
    (dfrom dto : Option ℤ) : List M2Patient :=
  let prows0 := sums.filter fun s =>
    s.chart_number.isSome && dateOk s.date_of_service dfrom dto
  sortByCharges M2Patient.total_charges <|
    (dedupFO (prows0.filterMap Summary.chart_number)).map fun chart =>
      let psub := prows0.filter fun s => s.chart_number == some chart
      let ptc := qsum Summary.total_charges psub
      let ptp := qsum Summary.total_payments psub
      let tsub0 := sums.filter fun s =>
        s.chart_number == some chart && s.type_code.isSome &&
        dateOk s.date_of_service dfrom dto
      let types := sortByCharges M2Type.total_charges <|
        (dedupFO (tsub0.filterMap Summary.type_code)).map fun tcode =>
          let tsub := tsub0.filter fun s => s.type_code == some tcode
          let ttc := qsum Summary.total_charges tsub
          let ttp := qsum Summary.total_payments tsub
          let csub0 := sums.filter fun s =>
            s.chart_number == some chart && s.type_code == some tcode &&
            s.primary_carrier.isSome && dateOk s.date_of_service dfrom dto
          let carriers := sortByCharges M2Carrier.total_charges <|
            (dedupFO (csub0.filterMap Summary.primary_carrier)).map fun c =>
              let csub := csub0.filter fun s => s.primary_carrier == some c
              let ctc := qsum Summary.total_charges csub
              let ctp := qsum Summary.total_payments csub
              ⟨c, csub.length, round2 ctc, round2 ctp,
                round2 (if 0 < ctc then ctp / ctc * 100 else 0),
                avgDaysTruthy (csub.filterMap Summary.days_to_first_payment)⟩
          ⟨tcode, tsub.length, round2 ttc, round2 ttp,
            round2 (if 0 < ttc then ttp / ttc * 100 else 0),
            avgDaysTruthy (tsub.filterMap Summary.days_to_first_payment), carriers⟩
      ⟨chart, psub.length, round2 ptc, round2 ptp,
        round2 (if 0 < ptc then ptp / ptc * 100 else 0), types⟩

structure M3Patient where
  chart_number : ℤ
  procedure_count : ℕ
  total_charges : ℚ
  total_payments : ℚ
  collection_rate : ℚ
  avg_days_to_payment : Option ℚ
deriving DecidableEq

structure M3Type where
  type_code : String
  procedure_count : ℕ
  total_charges : ℚ
  total_payments : ℚ
  collection_rate : ℚ
  avg_days_to_payment : Option ℚ
  patients : List M3Patient
deriving DecidableEq

structure M3Carrier where
  carrier : String
  procedure_count : ℕ
  total_charges : ℚ
  total_payments : ℚ
  collection_rate : ℚ
  avg_days_to_payment : Option ℚ
  surgery_types : List M3Type
deriving DecidableEq

/-- `get_insurance_surgery_patient_matrix`: carrier → surgery type →
patient. -/
def get_insurance_surgery_patient_matrix (sums : List Summary)
    (dfrom dto : Option ℤ) : List M3Carrier :=
  let crows0 := sums.filter fun s =>
    s.primary_carrier.isSome && dateOk s.date_of_service dfrom dto
  sortByCharges M3Carrier.total_charges <|
    (dedupFO (crows0.filterMap Summary.primary_carrier)).map fun c =>
      let csub := crows0.filter fun s => s.primary_carrier == some c
      let ctc := qsum Summary.total_charges csub
      let ctp := qsum Summary.total_payments csub
      let tsub0 := sums.filter fun s =>
        s.primary_carrier == some c && s.type_code.isSome &&
        dateOk s.date_of_service dfrom dto
      let types := sortByCharges M3Type.total_charges <|
        (dedupFO (tsub0.filterMap Summary.type_code)).map fun tcode =>
          let tsub := tsub0.filter fun s => s.type_code == some tcode
          let ttc := qsum Summary.total_charges tsub
          let ttp := qsum Summary.total_payments tsub
          let psub0 := sums.filter fun s =>
            s.primary_carrier == some c && s.type_code == some tcode &&
            s.chart_number.isSome && dateOk s.date_of_service dfrom dto
          let patients := sortByCharges M3Patient.total_charges <|
            (dedupFO (psub0.filterMap Summary.chart_number)).map fun chart =>
              let psub := psub0.filter fun s => s.chart_number == some chart
              let ptc := qsum Summary.total_charges psub
              let ptp := qsum Summary.total_payments psub
              ⟨chart, psub.length, round2 ptc, round2 ptp,
                round2 (if 0 < ptc then ptp / ptc * 100 else 0),
                avgDaysTruthy (psub.filterMap Summary.days_to_first_payment)⟩
          ⟨tcode, tsub.length, round2 ttc, round2 ttp,
            round2 (if 0 < ttc then ttp / ttc * 100 else 0),
            avgDaysTruthy (tsub.filterMap Summary.days_to_first_payment), patients⟩
      ⟨c, csub.length, round2 ctc, round2 ctp,
        round2 (if 0 < ctc then ctp / ctc * 100 else 0),
        avgDaysTruthy (csub.filterMap Summary.days_to_first_payment), types⟩

/-- A summary fixture with a surgery-type code and charges. -/
def mkSumType (pid tcode : String) (tc : ℚ) : Summary :=
  { Summary.init pid with type_code := some tcode, total_charges := tc }

/-!
## Upload pipeline (`upload_file` + `DataProcessorService._save_transactions`)

The SQLAlchemy session is a pair (committed rows, pending rows): `db.add`
appends to pending, `db.commit()` flushes pending into committed.  A
spreadsheet row is `Except String Tx`: `.error e` is a row whose numeric
conversion (`float(row.get("charges", 0) or 0)` etc.) raises with message
`e`.  The summary-upsert phase never touches the transaction table, so the
transaction-store effect of an import is fully captured here.
-/

structure DBSt where
  committed : List Tx
  pending : List Tx
deriving DecidableEq

/-- `db.commit()`. -/
def commitDB (st : DBSt) : DBSt := ⟨st.committed ++ st.pending, []⟩

/-- `db.add(transaction)`. -/
def addTx (st : DBSt) (t : Tx) : DBSt := ⟨st.committed, st.pending ++ [t]⟩

/-- `_save_transactions`: add each converted row, `db.commit()` every 500
rows and once after the loop; a conversion error propagates immediately,
leaving the session as it stood. -/
def saveTxs : List (Except String Tx) → ℕ → DBSt → Except (String × DBSt) (ℕ × DBSt)
  | [], count, st => .ok (count, commitDB st)
  | row :: rows, count, st =>
    match row with
    | .error e => .error (e, st)
    | .ok t =>
      saveTxs rows (count + 1)
        (if (count + 1) % 500 = 0 then commitDB (addTx st t) else addTx st t)

/-- The `upload_file` route around the processor: on success the save phase
has already committed; on any exception the handler records the failed
upload and calls `db.commit()` — which also flushes the pending partial
batch — then surfaces the cause message in the HTTP 500 detail. -/
def upload_file (rows : List (Except String Tx)) (st : DBSt) :
    Except String ℕ × DBSt :=
  match saveTxs rows 0 st with
  | .error (e, st2) => (.error e, commitDB st2)
  | .ok (n, st2) => (.ok n, st2)

/-- The rows successfully converted before the first failing row, and that
row's error message (if any). -/
def splitAtErr : List (Except String Tx) → List Tx × Option String
  | [] => ([], none)
  | .ok t :: rows =>
    let r := splitAtErr rows
    (t :: r.1, r.2)
  | .error e :: _ => ([], some e)

/-- A transaction fixture with a billing category. -/
def mkTxBC (pid cat : String) (c : ℚ) : Tx :=
  { mkTx pid c 0 0 with billing_category := some cat }

/-! ## Theorems -/

theorem floor_le_rhe (x : ℚ) : ⌊x⌋ ≤ rhe x := by
  unfold rhe; split_ifs <;> omega

theorem rhe_le_floor_add_one (x : ℚ) : rhe x ≤ ⌊x⌋ + 1 := by
  unfold rhe; split_ifs <;> omega

theorem rhe_intCast (n : ℤ) : rhe (n : ℚ) = n := by
  unfold rhe
  rw [Int.floor_intCast]
  have h : (n : ℚ) - (n : ℚ) = 0 := by ring
  rw [h]
  norm_num

theorem rhe_mono {x y : ℚ} (h : x ≤ y) : rhe x ≤ rhe y := by
  have hf : ⌊x⌋ ≤ ⌊y⌋ := Int.floor_le_floor h
  rcases lt_or_eq_of_le hf with hlt | heq
  · calc rhe x ≤ ⌊x⌋ + 1 := rhe_le_floor_add_one x
    _ ≤ ⌊y⌋ := by omega
    _ ≤ rhe y := floor_le_rhe y
  · unfold rhe
    rw [← heq]
    have hxy : x - (⌊x⌋ : ℚ) ≤ y - (⌊x⌋ : ℚ) := by linarith
    split_ifs <;> first | omega | linarith

theorem round2_mono {x y : ℚ} (h : x ≤ y) : round2 x ≤ round2 y := by
  unfold round2
  have h1 : x * 100 ≤ y * 100 := by linarith
  have h2 : rhe (x * 100) ≤ rhe (y * 100) := rhe_mono h1
  have h3 : ((rhe (x * 100) : ℤ) : ℚ) ≤ ((rhe (y * 100) : ℤ) : ℚ) := by exact_mod_cast h2
  linarith

theorem round2_intCast_div (n : ℤ) : round2 ((n : ℚ) / 100) = (n : ℚ) / 100 := by
  unfold round2
  have h : ((n : ℚ) / 100) * 100 = (n : ℚ) := by ring
  rw [h, rhe_intCast]

theorem round2_zero : round2 0 = 0 := by
  have h := round2_intCast_div 0
  simpa using h

theorem round2_hundred : round2 100 = 100 := by
  have h := round2_intCast_div 10000
  norm_num at h
  exact h

theorem round2_le_hundred {x : ℚ} (h : x ≤ 100) : round2 x ≤ 100 := by
  calc round2 x ≤ round2 100 := round2_mono h
  _ = 100 := round2_hundred

theorem Cent.exists_int {q : ℚ} (h : Cent q) : ∃ n : ℤ, q = (n : ℚ) / 100 := by
  refine ⟨(q * 100).num, ?_⟩
  have h1 : ((q * 100).num : ℚ) = q * 100 := by
    conv_rhs => rw [← Rat.num_div_den (q * 100)]
    rw [h]
    norm_num
  rw [h1]
  ring

theorem Cent.zero : Cent 0 := by
  unfold Cent
  norm_num

theorem Cent.add {a b : ℚ} (ha : Cent a) (hb : Cent b) : Cent (a + b) := by
  obtain ⟨m, hm⟩ := ha.exists_int
  obtain ⟨n, hn⟩ := hb.exists_int
  unfold Cent
  rw [hm, hn]
  have h : ((m : ℚ) / 100 + (n : ℚ) / 100) * 100 = ((m + n : ℤ) : ℚ) := by
    push_cast; ring
  rw [h, Rat.den_intCast]

theorem round2_cent {q : ℚ} (h : Cent q) : round2 q = q := by
  obtain ⟨n, hn⟩ := h.exists_int
  rw [hn, round2_intCast_div]

theorem Cent.intCast (n : ℤ) : Cent ((n : ℚ)) := by
  unfold Cent
  rw [show ((n : ℚ) * 100) = ((n * 100 : ℤ) : ℚ) by push_cast; ring]
  exact Rat.den_intCast _

theorem qsum_nil {α : Type} (f : α → ℚ) : qsum f ([] : List α) = 0 := rfl

theorem qsum_cons {α : Type} (f : α → ℚ) (x : α) (l : List α) :
    qsum f (x :: l) = f x + qsum f l := by
  unfold qsum; simp

theorem Cent.qsum {α : Type} {f : α → ℚ} {l : List α}
    (h : ∀ x ∈ l, Cent (f x)) : Cent (qsum f l) := by
  induction l with
  | nil => exact Cent.zero
  | cons x xs ih =>
    rw [qsum_cons]
    exact Cent.add (h x (by simp)) (ih fun y hy => h y (by simp [hy]))

theorem mem_dedupFOAux {α : Type} [DecidableEq α] {seen : List α} {l : List α} {x : α} :
    x ∈ dedupFOAux seen l ↔ x ∈ l ∧ x ∉ seen := by
  induction l generalizing seen with
  | nil => simp [dedupFOAux]
  | cons y ys ih =>
    unfold dedupFOAux
    by_cases hy : y ∈ seen
    · rw [if_pos hy, ih]
      simp only [List.mem_cons]
      by_cases hxy : x = y
      · subst hxy; tauto
      · tauto
    · rw [if_neg hy]
      simp only [List.mem_cons, ih, List.mem_cons]
      by_cases hxy : x = y
      · subst hxy; tauto
      · tauto

theorem mem_dedupFO {α : Type} [DecidableEq α] {l : List α} {x : α} : x ∈ dedupFO l ↔ x ∈ l := by
  unfold dedupFO
  rw [mem_dedupFOAux]
  simp

theorem nodup_dedupFOAux {α : Type} [DecidableEq α] (seen : List α) (l : List α) :
    (dedupFOAux seen l).Nodup := by
  induction l generalizing seen with
  | nil => simp [dedupFOAux]
  | cons y ys ih =>
    unfold dedupFOAux
    by_cases hy : y ∈ seen
    · simp only [if_pos hy]; exact ih seen
    · simp only [if_neg hy]
      refine List.Nodup.cons ?_ (ih (y :: seen))
      intro hmem
      rw [mem_dedupFOAux] at hmem
      exact hmem.2 (by simp)

theorem nodup_dedupFO {α : Type} [DecidableEq α] (l : List α) : (dedupFO l).Nodup := nodup_dedupFOAux [] l

/-- `Σ_{filter p} f + Σ_{filter (not p)} f = Σ f`. -/
theorem qsum_filter_not_add {β : Type} (p : β → Bool) (f : β → ℚ) (l : List β) :
    qsum f (l.filter p) + qsum f (l.filter (fun x => !(p x))) = qsum f l := by
  induction l with
  | nil => simp [qsum]
  | cons x xs ih =>
    cases hp : p x <;>
      simp only [List.filter_cons, hp, Bool.not_true, Bool.not_false, if_true, if_false,
        Bool.false_eq_true, Bool.true_eq_false, ite_true, ite_false, qsum_cons] <;>
      linarith

/-- If `p` implies `q` and `f` is nonnegative on rows satisfying `q`, the
`p`-filtered sum is at most the `q`-filtered sum. -/
theorem qsum_filter_mono {β : Type} (p q : β → Bool) (f : β → ℚ) (l : List β)
    (hpq : ∀ x, p x = true → q x = true)
    (hf : ∀ x, q x = true → 0 ≤ f x) :
    qsum f (l.filter p) ≤ qsum f (l.filter q) := by
  induction l with
  | nil => simp [qsum]
  | cons x xs ih =>
    cases hp : p x
    · cases hq : q x
      · simpa [List.filter_cons, hp, hq] using ih
      · simp only [List.filter_cons, hp, hq, Bool.false_eq_true, Bool.true_eq_false,
          ite_true, ite_false, if_true, if_false, qsum_cons]
        have := hf x hq
        linarith
    · have hq := hpq x hp
      simp only [List.filter_cons, hp, hq, ite_true, qsum_cons]
      linarith

theorem qsum_filter_nonneg {β : Type} (q : β → Bool) (f : β → ℚ) (l : List β)
    (hf : ∀ x, q x = true → 0 ≤ f x) :
    0 ≤ qsum f (l.filter q) := by
  induction l with
  | nil => simp [qsum]
  | cons x xs ih =>
    cases hq : q x
    · simpa [List.filter_cons, hq] using ih
    · simp only [List.filter_cons, hq, ite_true, qsum_cons]
      have := hf x hq
      linarith

/-!
### Aggregator lemmas
-/

theorem keepOr_keepOr (n o : Option ℤ) : keepOr n (keepOr n o) = keepOr n o := by
  cases n <;> rfl

theorem dtfpOf_dtfpOf (a b o : Option ℤ) : dtfpOf a b (dtfpOf a b o) = dtfpOf a b o := by
  cases a <;> cases b <;> rfl

theorem statusOf_statusOf (tc tp ta : ℚ) (old : Status) :
    statusOf tc tp ta (statusOf tc tp ta old) = statusOf tc tp ta old := by
  unfold statusOf
  split_ifs <;> rfl

theorem updateSummary_procedure_id (s : Summary) (f : Tx) (r : List Tx) :
    (updateSummary s f r).procedure_id = s.procedure_id := rfl

/-- Re-aggregating an unchanged group is a no-op on the summary. -/
theorem updateSummary_idem (s : Summary) (f : Tx) (r : List Tx) :
    updateSummary (updateSummary s f r) f r = updateSummary s f r := by
  simp only [updateSummary, keepOr_keepOr, dtfpOf_dtfpOf, statusOf_statusOf]

theorem mem_insertStr {x y : String} {l : List String} :
    y ∈ insertStr x l ↔ y = x ∨ y ∈ l := by
  induction l with
  | nil => simp [insertStr]
  | cons z zs ih =>
    unfold insertStr
    split_ifs with h
    · simp [List.mem_cons]
    · simp only [List.mem_cons, ih]
      tauto

theorem mem_sortStr {y : String} {l : List String} : y ∈ sortStr l ↔ y ∈ l := by
  induction l with
  | nil => simp [sortStr]
  | cons x xs ih =>
    unfold sortStr
    rw [mem_insertStr, ih]
    simp [List.mem_cons]

theorem mem_procIds {pid : String} {df : List Tx} :
    pid ∈ procIds df ↔ ∃ t ∈ df, t.procedure_id = pid := by
  unfold procIds
  rw [mem_sortStr, mem_dedupFO, List.mem_map]

theorem groupRows_ne_nil {pid : String} {df : List Tx} (h : pid ∈ procIds df) :
    ∃ f r, groupRows pid df = f :: r := by
  obtain ⟨t, ht, hpid⟩ := mem_procIds.mp h
  have hmem : t ∈ groupRows pid df := by
    unfold groupRows
    rw [List.mem_filter]
    exact ⟨ht, by simp [hpid]⟩
  cases hg : groupRows pid df with
  | nil => rw [hg] at hmem; exact absurd hmem (List.not_mem_nil t)
  | cons f r => exact ⟨f, r, rfl⟩

theorem find?_pid_cons_pos {pid : String} {s : Summary} (ss : List Summary)
    (h : s.procedure_id = pid) :
    (s :: ss).find? (fun x => x.procedure_id == pid) = some s :=
  List.find?_cons_of_pos _ (by simp [h])

theorem find?_pid_cons_neg {pid : String} {s : Summary} (ss : List Summary)
    (h : s.procedure_id ≠ pid) :
    (s :: ss).find? (fun x => x.procedure_id == pid)
      = ss.find? (fun x => x.procedure_id == pid) :=
  List.find?_cons_of_neg _ (by simp [h])

theorem find?_updateFirst_found {p : Summary → Bool} {g : Summary → Summary}
    {st : List Summary} {s₀ : Summary}
    (hg : ∀ s, p (g s) = p s) (hfind : st.find? p = some s₀) :
    (updateFirst p g st).find? p = some (g s₀) := by
  induction st with
  | nil => simp [List.find?] at hfind
  | cons s ss ih =>
    unfold updateFirst
    by_cases hp : p s = true
    · rw [if_pos hp]
      rw [List.find?_cons_of_pos _ hp] at hfind
      rw [List.find?_cons_of_pos _ (by rw [hg]; exact hp)]
      simp at hfind
      rw [hfind]
    · rw [if_neg hp]
      rw [List.find?_cons_of_neg _ hp] at hfind
      rw [List.find?_cons_of_neg _ hp]
      exact ih hfind

theorem updateFirst_eq_of_fix {p : Summary → Bool} {g : Summary → Summary}
    {st : List Summary} {s₀ : Summary}
    (hfind : st.find? p = some s₀) (hfix : g s₀ = s₀) :
    updateFirst p g st = st := by
  induction st with
  | nil => rfl
  | cons s ss ih =>
    unfold updateFirst
    by_cases hp : p s = true
    · rw [if_pos hp]
      rw [List.find?_cons_of_pos _ hp] at hfind
      simp at hfind
      rw [hfind, hfix]
    · rw [if_neg hp]
      rw [List.find?_cons_of_neg _ hp] at hfind
      rw [ih hfind]

theorem find?_updateFirst_ne {pid pid' : String} (hne : pid ≠ pid')
    {g : Summary → Summary} (hg : ∀ s, (g s).procedure_id = s.procedure_id)
    (st : List Summary) :
    (updateFirst (fun s => s.procedure_id == pid') g st).find?
        (fun s => s.procedure_id == pid)
      = st.find? (fun s => s.procedure_id == pid) := by
  induction st with
  | nil => rfl
  | cons s ss ih =>
    unfold updateFirst
    by_cases hp : (s.procedure_id == pid') = true
    · rw [if_pos hp]
      have hspid : s.procedure_id = pid' := by simpa using hp
      have h1 : (g s).procedure_id ≠ pid := by
        rw [hg s, hspid]
        exact fun h => hne h.symm
      have h2 : s.procedure_id ≠ pid := by
        rw [hspid]
        exact fun h => hne h.symm
      rw [find?_pid_cons_neg _ h1, find?_pid_cons_neg _ h2]
    · rw [if_neg hp]
      by_cases hq : s.procedure_id = pid
      · rw [find?_pid_cons_pos _ hq, find?_pid_cons_pos _ hq]
      · rw [find?_pid_cons_neg _ hq, find?_pid_cons_neg _ hq]
        exact ih

theorem find?_append_none {p : Summary → Bool} {l₁ l₂ : List Summary}
    (h : l₁.find? p = none) : (l₁ ++ l₂).find? p = l₂.find? p := by
  induction l₁ with
  | nil => rfl
  | cons s ss ih =>
    by_cases hp : p s = true
    · rw [List.find?_cons_of_pos _ hp] at h
      exact absurd h (by simp)
    · rw [List.find?_cons_of_neg _ hp] at h
      rw [List.cons_append, List.find?_cons_of_neg _ hp]
      exact ih h

theorem find?_append_some {p : Summary → Bool} {l₁ l₂ : List Summary} {s₀ : Summary}
    (h : l₁.find? p = some s₀) : (l₁ ++ l₂).find? p = some s₀ := by
  induction l₁ with
  | nil => simp [List.find?] at h
  | cons s ss ih =>
    by_cases hp : p s = true
    · rw [List.find?_cons_of_pos _ hp] at h
      rw [List.cons_append, List.find?_cons_of_pos _ hp]
      exact h
    · rw [List.find?_cons_of_neg _ hp] at h
      rw [List.cons_append, List.find?_cons_of_neg _ hp]
      exact ih h

theorem find?_stepSummary_ne {df : List Tx} {st : List Summary} {pid pid' : String}
    (hne : pid ≠ pid') :
    (stepSummary df st pid').find? (fun s => s.procedure_id == pid)
      = st.find? (fun s => s.procedure_id == pid) := by
  unfold stepSummary
  cases hg : groupRows pid' df with
  | nil => rfl
  | cons first rest =>
    split_ifs with hex
    · exact find?_updateFirst_ne hne (fun s => updateSummary_procedure_id s first rest) st
    · have hnone : st.find? (fun s => s.procedure_id == pid') = none := by
        cases hf : st.find? (fun s => s.procedure_id == pid') with
        | none => rfl
        | some s => rw [hf] at hex; simp at hex
      cases hf : st.find? (fun s => s.procedure_id == pid) with
      | some s => exact find?_append_some hf
      | none =>
        rw [find?_append_none hf]
        have hnp : (updateSummary (Summary.init pid') first rest).procedure_id ≠ pid := by
          rw [updateSummary_procedure_id]
          show (Summary.init pid').procedure_id ≠ pid
          exact fun h => hne h.symm
        rw [find?_pid_cons_neg _ hnp]
        rfl

theorem find?_foldl_not_mem {df : List Tx} {pids : List String} {pid : String}
    (h : pid ∉ pids) (st : List Summary) :
    (pids.foldl (stepSummary df) st).find? (fun s => s.procedure_id == pid)
      = st.find? (fun s => s.procedure_id == pid) := by
  induction pids generalizing st with
  | nil => rfl
  | cons q qs ih =>
    have hq : pid ≠ q := fun hc => h (by simp [hc])
    have hqs : pid ∉ qs := fun hc => h (by simp [hc])
    rw [List.foldl_cons, ih hqs, find?_stepSummary_ne hq]

theorem find?_stepSummary_self {df : List Tx} {st : List Summary} {pid : String}
    {first : Tx} {rest : List Tx} (hg : groupRows pid df = first :: rest) :
    ∃ s₀, (stepSummary df st pid).find? (fun s => s.procedure_id == pid)
      = some (updateSummary s₀ first rest) := by
  unfold stepSummary
  rw [hg]
  split_ifs with hex
  · cases hf : st.find? (fun s => s.procedure_id == pid) with
    | none => rw [hf] at hex; simp at hex
    | some s₀ =>
      refine ⟨s₀, ?_⟩
      exact find?_updateFirst_found
        (fun s => by rw [updateSummary_procedure_id]) hf
  · have hnone : st.find? (fun s => s.procedure_id == pid) = none := by
      cases hf : st.find? (fun s => s.procedure_id == pid) with
      | none => rfl
      | some s => rw [hf] at hex; simp at hex
    refine ⟨Summary.init pid, ?_⟩
    rw [find?_append_none hnone]
    exact find?_pid_cons_pos _ (by rw [updateSummary_procedure_id]; rfl)

theorem find?_foldl_processed {df : List Tx} {pids : List String} {pid : String}
    {first : Tx} {rest : List Tx}
    (hmem : pid ∈ pids) (hg : groupRows pid df = first :: rest) (st : List Summary) :
    ∃ s₀, (pids.foldl (stepSummary df) st).find? (fun s => s.procedure_id == pid)
      = some (updateSummary s₀ first rest) := by
  induction pids generalizing st with
  | nil => exact absurd hmem (List.not_mem_nil pid)
  | cons q qs ih =>
    rw [List.foldl_cons]
    by_cases hqs : pid ∈ qs
    · exact ih hqs _
    · have hq : pid = q := by
        rcases List.mem_cons.mp hmem with h | h
        · exact h
        · exact absurd h hqs
      subst hq
      obtain ⟨s₀, hs₀⟩ := @find?_stepSummary_self df st pid first rest hg
      exact ⟨s₀, by rw [find?_foldl_not_mem hqs, hs₀]⟩

theorem foldl_fixpoints {β γ : Type} (g : β → γ → β) (l : List γ) (a : β)
    (h : ∀ x ∈ l, g a x = a) : l.foldl g a = a := by
  induction l with
  | nil => rfl
  | cons x xs ih =>
    rw [List.foldl_cons, h x (by simp)]
    exact ih fun y hy => h y (by simp [hy])

theorem stepSummary_fix {df : List Tx} {st : List Summary} {pid : String}
    {first : Tx} {rest : List Tx} {s₀ : Summary}
    (hg : groupRows pid df = first :: rest)
    (hfind : st.find? (fun s => s.procedure_id == pid) = some (updateSummary s₀ first rest)) :
    stepSummary df st pid = st := by
  unfold stepSummary
  cases hg2 : groupRows pid df with
  | nil =>
    rw [hg2] at hg
  | cons f2 r2 =>
    rw [hg2] at hg
    injection hg with h1 h2
    subst h1
    subst h2
    show (if (st.find? (fun s => s.procedure_id == pid)).isSome = true then
        updateFirst (fun s => s.procedure_id == pid) (fun s => updateSummary s f2 r2) st
      else st ++ [updateSummary (Summary.init pid) f2 r2]) = st
    rw [if_pos (by rw [hfind]; rfl)]
    exact updateFirst_eq_of_fix hfind (updateSummary_idem s₀ f2 r2)

theorem countP_updateFirst {q p : Summary → Bool} {g : Summary → Summary}
    (hg : ∀ s, q (g s) = q s) (st : List Summary) :
    (updateFirst p g st).countP q = st.countP q := by
  induction st with
  | nil => rfl
  | cons s ss ih =>
    unfold updateFirst
    by_cases hp : p s = true
    · rw [if_pos hp]
      rw [List.countP_cons, List.countP_cons, hg]
    · rw [if_neg hp]
      rw [List.countP_cons, List.countP_cons, ih]

theorem countP_pid_stepSummary_ne {df : List Tx} {st : List Summary}
    {pid pid' : String} (hne : pid ≠ pid') :
    (stepSummary df st pid').countP (fun s => s.procedure_id == pid)
      = st.countP (fun s => s.procedure_id == pid) := by
  unfold stepSummary
  cases hg : groupRows pid' df with
  | nil => rfl
  | cons first rest =>
    split_ifs with hex
    · exact countP_updateFirst (fun s => by rw [updateSummary_procedure_id]) st
    · rw [List.countP_append]
      have : ((updateSummary (Summary.init pid') first rest).procedure_id == pid) = false := by
        rw [updateSummary_procedure_id]
        simp [Summary.init]
        exact fun h => hne h.symm
      simp [List.countP_cons, this]

theorem countP_pos_of_find? {p : Summary → Bool} {st : List Summary} {s₀ : Summary}
    (h : st.find? p = some s₀) : 1 ≤ st.countP p := by
  have hmem := List.find?_some h
  have hmem2 := List.mem_of_find?_eq_some h
  calc 1 ≤ st.countP p := List.countP_pos_iff.mpr ⟨s₀, hmem2, hmem⟩

theorem countP_eq_zero_of_find?_none {p : Summary → Bool} {st : List Summary}
    (h : st.find? p = none) : st.countP p = 0 := by
  rw [List.countP_eq_zero]
  intro s hs
  have := List.find?_eq_none.mp h
  exact fun hp => this s hs hp

theorem countP_pid_stepSummary_self {df : List Tx} {st : List Summary} {pid : String}
    {first : Tx} {rest : List Tx}
    (hg : groupRows pid df = first :: rest)
    (hle : st.countP (fun s => s.procedure_id == pid) ≤ 1) :
    (stepSummary df st pid).countP (fun s => s.procedure_id == pid) = 1 := by
  unfold stepSummary
  cases hg2 : groupRows pid df with
  | nil => rw [hg2] at hg; exact absurd hg (by simp)
  | cons f2 r2 =>
    split_ifs with hex
    · rw [countP_updateFirst (fun s => by rw [updateSummary_procedure_id]) st]
      cases hf : st.find? (fun s => s.procedure_id == pid) with
      | none => rw [hf] at hex; simp at hex
      | some s₀ =>
        have := countP_pos_of_find? hf
        omega
    · have hnone : st.find? (fun s => s.procedure_id == pid) = none := by
        cases hf : st.find? (fun s => s.procedure_id == pid) with
        | none => rfl
        | some s => rw [hf] at hex; simp at hex
      rw [List.countP_append, countP_eq_zero_of_find?_none hnone]
      have : ((updateSummary (Summary.init pid) f2 r2).procedure_id == pid) = true := by
        rw [updateSummary_procedure_id]
        simp [Summary.init]
      simp [List.countP_cons, this]

theorem countP_pid_foldl_not_mem {df : List Tx} {pids : List String} {pid : String}
    (h : pid ∉ pids) (st : List Summary) :
    (pids.foldl (stepSummary df) st).countP (fun s => s.procedure_id == pid)
      = st.countP (fun s => s.procedure_id == pid) := by
  induction pids generalizing st with
  | nil => rfl
  | cons q qs ih =>
    have hq : pid ≠ q := fun hc => h (by simp [hc])
    have hqs : pid ∉ qs := fun hc => h (by simp [hc])
    rw [List.foldl_cons, ih hqs, countP_pid_stepSummary_ne hq]

theorem countP_pid_foldl {df : List Tx} {pids : List String} {pid : String}
    {first : Tx} {rest : List Tx}
    (hmem : pid ∈ pids) (hg : groupRows pid df = first :: rest) (st : List Summary)
    (hle : st.countP (fun s => s.procedure_id == pid) ≤ 1) :
    (pids.foldl (stepSummary df) st).countP (fun s => s.procedure_id == pid) = 1 := by
  induction pids generalizing st with
  | nil => exact absurd hmem (List.not_mem_nil pid)
  | cons q qs ih =>
    rw [List.foldl_cons]
    by_cases hqs : pid ∈ qs
    · apply ih hqs
      by_cases hq : pid = q
      · subst hq
        rw [countP_pid_stepSummary_self hg hle]
      · rw [countP_pid_stepSummary_ne hq]
        exact hle
    · have hq : pid = q := by
        rcases List.mem_cons.mp hmem with h | h
        · exact h
        · exact absurd h hqs
      subst hq
      rw [countP_pid_foldl_not_mem hqs]
      exact countP_pid_stepSummary_self hg hle

/-- Re-running `_build_procedure_summaries` on an unchanged dataframe leaves
the summary table exactly as it was. -/
theorem buildSummaries_idem (df : List Tx) (st : List Summary) :
    buildSummaries df (buildSummaries df st) = buildSummaries df st := by
  unfold buildSummaries
  apply foldl_fixpoints
  intro pid hpid
  obtain ⟨first, rest, hg⟩ := groupRows_ne_nil hpid
  obtain ⟨s₀, hfind⟩ := find?_foldl_processed hpid hg st
  exact stepSummary_fix hg hfind

theorem mem_updateFirst {p : Summary → Bool} {g : Summary → Summary}
    {st : List Summary} {s : Summary} (h : s ∈ updateFirst p g st) :
    s ∈ st ∨ ∃ s₀ ∈ st, p s₀ = true ∧ s = g s₀ := by
  induction st with
  | nil => exact absurd h (by simp [updateFirst])
  | cons x xs ih =>
    unfold updateFirst at h
    by_cases hp : p x = true
    · rw [if_pos hp] at h
      rcases List.mem_cons.mp h with rfl | h2
      · exact Or.inr ⟨x, by simp, hp, rfl⟩
      · exact Or.inl (List.mem_cons_of_mem _ h2)
    · rw [if_neg hp] at h
      rcases List.mem_cons.mp h with rfl | h2
      · exact Or.inl (List.mem_cons_self _ _)
      · rcases ih h2 with h3 | ⟨s₀, h4, h5, h6⟩
        · exact Or.inl (List.mem_cons_of_mem _ h3)
        · exact Or.inr ⟨s₀, List.mem_cons_of_mem _ h4, h5, h6⟩

theorem good_stepSummary {df : List Tx} {st : List Summary} {pid : String}
    (hst : ∀ s ∈ st, GoodFor df s) :
    ∀ s ∈ stepSummary df st pid, GoodFor df s := by
  intro s hs
  unfold stepSummary at hs
  cases hg : groupRows pid df with
  | nil => rw [hg] at hs; exact hst s hs
  | cons first rest =>
    rw [hg] at hs
    have hs2 : s ∈ (if (st.find? (fun x => x.procedure_id == pid)).isSome = true then
        updateFirst (fun x => x.procedure_id == pid) (fun x => updateSummary x first rest) st
      else st ++ [updateSummary (Summary.init pid) first rest]) := hs
    clear hs
    by_cases hex : (st.find? (fun x => x.procedure_id == pid)).isSome = true
    · rw [if_pos hex] at hs2
      rcases mem_updateFirst hs2 with h | ⟨s₀, hmem, hp, rfl⟩
      · exact hst s h
      · obtain ⟨pid₀, f₀, r₀, hg₀, hs₀⟩ := hst s₀ hmem
        have hpid₀ : s₀.procedure_id = pid₀ := by
          rw [hs₀, updateSummary_procedure_id]; rfl
        have hpids : s₀.procedure_id = pid := by simpa using hp
        have : pid₀ = pid := by rw [← hpid₀, hpids]
        subst this
        rw [hg₀] at hg
        injection hg with h1 h2
        subst h1
        subst h2
        rw [hs₀, updateSummary_idem]
        exact ⟨pid₀, f₀, r₀, hg₀, rfl⟩
    · rw [if_neg hex] at hs2
      rcases List.mem_append.mp hs2 with h | h
      · exact hst s h
      · rcases List.mem_cons.mp h with rfl | h2
        · exact ⟨pid, first, rest, hg, rfl⟩
        · exact absurd h2 (by simp)

theorem good_foldl {df : List Tx} {pids : List String} {st : List Summary}
    (hst : ∀ s ∈ st, GoodFor df s) :
    ∀ s ∈ pids.foldl (stepSummary df) st, GoodFor df s := by
  induction pids generalizing st with
  | nil => exact hst
  | cons q qs ih =>
    rw [List.foldl_cons]
    exact ih (good_stepSummary hst)

theorem mem_buildSummaries_nil {df : List Tx} {s : Summary}
    (h : s ∈ buildSummaries df []) : GoodFor df s :=
  good_foldl (fun _ hc => absurd hc (by simp)) s h

/-- C1 (counterexample): on a single transaction with `charges = -100` and no
payments or adjustments, the spec's rule (which only special-cases
`total_charges == 0`) demands status `collected` (`0 ≥ 0.95 × (-100)`), but
the code's guard is `total_charges > 0`, so the summary is left at the
default `pending`. -/
theorem claim1_counterexample :
    specStatusRule (-100) 0 0 = some Status.collected ∧
    (buildSummaries [mkTx "P1" (-100) 0 0] []).map Summary.status = [Status.pending] ∧
    Status.pending ≠ Status.collected := by
  refine ⟨?_, ?_, by decide⟩
  · unfold specStatusRule
    norm_num
  · show (buildSummaries [mkTx "P1" (-100) 0 0] []).map Summary.status = [Status.pending]
    simp only [buildSummaries, procIds, dedupFO, dedupFOAux, sortStr, insertStr,
      List.map, List.foldl, stepSummary, groupRows, List.filter, List.find?,
      List.mem_nil_iff, if_false]
    norm_num [mkTx, updateSummary, Summary.init, statusOf, statusChain, qsum, keepOr, dtfpOf]

/-- C1 (amended): the status of every summary produced by the aggregator is
determined by the priority chain when `total_charges > 0`, and is otherwise
(for zero and for negative `total_charges`) left at its prior value — the
default `pending` for every summary of a fresh table. -/
theorem claim1_status_amended (df : List Tx) (s : Summary)
    (h : s ∈ buildSummaries df []) :
    s.status = statusOf s.total_charges s.total_payments s.total_adjustments Status.pending ∧
    ∀ (s₀ : Summary) (f : Tx) (r : List Tx),
      (updateSummary s₀ f r).status
        = statusOf (updateSummary s₀ f r).total_charges
            (updateSummary s₀ f r).total_payments
            (updateSummary s₀ f r).total_adjustments s₀.status := by
  constructor
  · obtain ⟨pid, f, r, hg, rfl⟩ := mem_buildSummaries_nil h
    rfl
  · intro s₀ f r
    rfl

theorem claim1_witness :
    (updateSummary (Summary.init "P1") (mkTx "P1" 100 100 0) [] ∈
        buildSummaries [mkTx "P1" 100 100 0] []) ∧
    ((updateSummary (Summary.init "P1") (mkTx "P1" 100 100 0) []).status
      = statusOf (updateSummary (Summary.init "P1") (mkTx "P1" 100 100 0) []).total_charges
          (updateSummary (Summary.init "P1") (mkTx "P1" 100 100 0) []).total_payments
          (updateSummary (Summary.init "P1") (mkTx "P1" 100 100 0) []).total_adjustments
          Status.pending ∧
      ∀ (s₀ : Summary) (f : Tx) (r : List Tx),
        (updateSummary s₀ f r).status
          = statusOf (updateSummary s₀ f r).total_charges
              (updateSummary s₀ f r).total_payments
              (updateSummary s₀ f r).total_adjustments s₀.status) := by
  have hmem : updateSummary (Summary.init "P1") (mkTx "P1" 100 100 0) [] ∈
      buildSummaries [mkTx "P1" 100 100 0] [] := by
    simp only [buildSummaries, procIds, dedupFO, dedupFOAux, sortStr, insertStr,
      List.map, List.foldl, stepSummary, groupRows, List.filter, List.find?]
    norm_num [mkTx]
  exact ⟨hmem, claim1_status_amended [mkTx "P1" 100 100 0] _ hmem⟩

/-- C3: re-running the aggregator on an unchanged dataframe over a table with
at most one summary per procedure id (the `procedure_id` unique constraint)
reproduces the table bit-for-bit, and leaves exactly one summary per imported
procedure id. -/
theorem claim3_idempotent_upsert (df : List Tx) (st : List Summary)
    (hU : ∀ pid : String, st.countP (fun s => s.procedure_id == pid) ≤ 1) :
    buildSummaries df (buildSummaries df st) = buildSummaries df st ∧
    ∀ pid ∈ procIds df,
      (buildSummaries df st).countP (fun s => s.procedure_id == pid) = 1 := by
  constructor
  · exact buildSummaries_idem df st
  · intro pid hpid
    obtain ⟨f, r, hg⟩ := groupRows_ne_nil hpid
    exact countP_pid_foldl hpid hg st (hU pid)

theorem claim3_witness :
    (∀ pid : String, ([] : List Summary).countP (fun s => s.procedure_id == pid) ≤ 1) ∧
    (buildSummaries [mkTx "P1" 100 50 0] (buildSummaries [mkTx "P1" 100 50 0] [])
        = buildSummaries [mkTx "P1" 100 50 0] [] ∧
      ∀ pid ∈ procIds [mkTx "P1" 100 50 0],
        (buildSummaries [mkTx "P1" 100 50 0] []).countP
          (fun s => s.procedure_id == pid) = 1) :=
  ⟨fun _ => by simp, claim3_idempotent_upsert [mkTx "P1" 100 50 0] [] (fun _ => by simp)⟩

theorem allAvgNone_cons {n : MNode} {l : List MNode} :
    allAvgNone (n :: l)
      ↔ (n.avg_days_to_payment = none ∧ allAvgNone n.children) ∧ allAvgNone l := by
  cases n with
  | mk k pc tc tp cr ad ch =>
    simp [allAvgNone, MNode.avg_days_to_payment, MNode.children, and_assoc]

theorem allAvgNone_iff_forall {l : List MNode} :
    allAvgNone l ↔ ∀ n ∈ l, n.avg_days_to_payment = none ∧ allAvgNone n.children := by
  induction l with
  | nil => simp [allAvgNone]
  | cons n rest ih =>
    rw [allAvgNone_cons, ih]
    constructor
    · rintro ⟨h1, h2⟩ m hm
      rcases List.mem_cons.mp hm with rfl | hm2
      · exact h1
      · exact h2 m hm2
    · intro h
      exact ⟨h n (by simp), fun m hm => h m (by simp [hm])⟩

theorem allCRInv_cons {n : MNode} {l : List MNode} :
    allCRInv (n :: l)
      ↔ ((n.collection_rate
            = if 0 < n.total_charges
              then round2 (n.total_payments / n.total_charges * 100) else 0)
          ∧ allCRInv n.children)
        ∧ allCRInv l := by
  cases n with
  | mk k pc tc tp cr ad ch =>
    simp [allCRInv, MNode.collection_rate, MNode.total_charges, MNode.total_payments,
      MNode.children, and_assoc]

theorem allCRInv_iff_forall {l : List MNode} :
    allCRInv l ↔ ∀ n ∈ l,
      (n.collection_rate
          = if 0 < n.total_charges
            then round2 (n.total_payments / n.total_charges * 100) else 0)
        ∧ allCRInv n.children := by
  induction l with
  | nil => simp [allCRInv]
  | cons n rest ih =>
    rw [allCRInv_cons, ih]
    constructor
    · rintro ⟨h1, h2⟩ m hm
      rcases List.mem_cons.mp hm with rfl | hm2
      · exact h1
      · exact h2 m hm2
    · intro h
      exact ⟨h n (by simp), fun m hm => h m (by simp [hm])⟩

theorem deepSorted_cons {n : MNode} {l : List MNode} :
    deepSorted (n :: l)
      ↔ (SortedDesc n.children ∧ deepSorted n.children) ∧ deepSorted l := by
  cases n with
  | mk k pc tc tp cr ad ch => simp [deepSorted, MNode.children]

theorem deepSorted_iff_forall {l : List MNode} :
    deepSorted l ↔ ∀ n ∈ l, SortedDesc n.children ∧ deepSorted n.children := by
  induction l with
  | nil => simp [deepSorted]
  | cons n rest ih =>
    rw [deepSorted_cons, ih]
    constructor
    · rintro ⟨h1, h2⟩ m hm
      rcases List.mem_cons.mp hm with rfl | hm2
      · exact h1
      · exact h2 m hm2
    · intro h
      exact ⟨h n (by simp), fun m hm => h m (by simp [hm])⟩

theorem mem_sortNodes {n : MNode} {l : List MNode} : n ∈ sortNodes l ↔ n ∈ l :=
  (List.mergeSort_perm l _).mem_iff

theorem sortedDesc_sortNodes (l : List MNode) : SortedDesc (sortNodes l) := by
  have h := @List.sorted_mergeSort MNode
    (fun a b : MNode => decide (b.total_charges ≤ a.total_charges))
    (fun a b c hab hbc => by
      simp only [decide_eq_true_eq] at *
      linarith)
    (fun a b => by
      simp only [Bool.or_eq_true, decide_eq_true_eq]
      exact le_total b.total_charges a.total_charges)
    l
  unfold SortedDesc sortNodes
  exact h.imp fun hab => by simpa using hab

theorem leafChargeSum_cons (n : MNode) (l : List MNode) :
    leafChargeSum (n :: l) = nodeLeafCharge n + leafChargeSum l := by
  cases n with
  | mk k pc tc tp cr ad ch =>
    cases ch <;> simp [leafChargeSum, nodeLeafCharge]

theorem leafChargeSum_eq_sum_map (l : List MNode) :
    leafChargeSum l = (l.map nodeLeafCharge).sum := by
  induction l with
  | nil => simp [leafChargeSum]
  | cons n rest ih => rw [leafChargeSum_cons, ih, List.map_cons, List.sum_cons]

theorem leafChargeSum_sortNodes (l : List MNode) :
    leafChargeSum (sortNodes l) = leafChargeSum l := by
  rw [leafChargeSum_eq_sum_map, leafChargeSum_eq_sum_map]
  exact ((List.mergeSort_perm l _).map nodeLeafCharge).sum_eq

theorem buildLevel_cons {α : Type} (cfg : TableCfg α) (d : Dim) (rest : List Dim)
    (rows : List α) :
    buildLevel cfg (d :: rest) rows
      = sortNodes ((levelKeys cfg d rows).map (nodeFor cfg d rest rows)) := rfl

theorem mem_buildLevel_cons {α : Type} {cfg : TableCfg α} {d : Dim} {rest : List Dim}
    {rows : List α} {n : MNode} :
    n ∈ buildLevel cfg (d :: rest) rows
      ↔ ∃ v ∈ levelKeys cfg d rows, n = nodeFor cfg d rest rows v := by
  rw [buildLevel_cons, mem_sortNodes, List.mem_map]
  constructor
  · rintro ⟨v, hv, rfl⟩; exact ⟨v, hv, rfl⟩
  · rintro ⟨v, hv, rfl⟩; exact ⟨v, hv, rfl⟩

/-- On the transaction path every node, at every depth, reports
`avg_days_to_payment = None`. -/
theorem allAvgNone_buildLevel_tx (dims : List Dim) :
    ∀ rows : List Tx, allAvgNone (buildLevel txCfg dims rows) := by
  induction dims with
  | nil =>
    intro rows
    show allAvgNone []
    simp [allAvgNone]
  | cons d rest ih =>
    intro rows
    rw [allAvgNone_iff_forall]
    intro n hn
    obtain ⟨v, hv, rfl⟩ := mem_buildLevel_cons.mp hn
    exact ⟨rfl, ih _⟩

theorem countsDistinct_buildLevel (dims : List Dim) :
    ∀ rows : List Tx, countsDistinct dims rows (buildLevel txCfg dims rows) := by
  induction dims with
  | nil => intro rows; rfl
  | cons d rest ih =>
    intro rows
    intro n hn
    obtain ⟨v, hv, rfl⟩ := mem_buildLevel_cons.mp hn
    exact ⟨rfl, ih _⟩

/-- Every level of the dynamic matrix, at every depth, is sorted descending
by total charges. -/
theorem levelsSorted_buildLevel {α : Type} (cfg : TableCfg α) (dims : List Dim) :
    ∀ rows : List α, levelsSorted (buildLevel cfg dims rows) := by
  induction dims with
  | nil =>
    intro rows
    show levelsSorted []
    exact ⟨List.Pairwise.nil, by simp [deepSorted]⟩
  | cons d rest ih =>
    intro rows
    constructor
    · rw [buildLevel_cons]
      exact sortedDesc_sortNodes _
    · rw [deepSorted_iff_forall]
      intro n hn
      obtain ⟨v, hv, rfl⟩ := mem_buildLevel_cons.mp hn
      have h := ih (rows.filter fun r => cfg.key d r == some v)
      exact ⟨h.1, h.2⟩

theorem filter_key_of_ne {α : Type} (keyf : α → Option GKey) {v w : GKey}
    (hne : w ≠ v) (rows : List α) :
    (rows.filter fun r => !(keyf r == some v)).filter (fun r => keyf r == some w)
      = rows.filter fun r => keyf r == some w := by
  rw [List.filter_filter]
  apply List.filter_congr
  intro r _
  by_cases hw : (keyf r == some w) = true
  · have hkw : keyf r = some w := by simpa using hw
    have hv : (keyf r == some v) = false := by
      rw [hkw]
      simp
      exact hne
    rw [hw, hv]
    rfl
  · rw [Bool.eq_false_iff.mpr hw]
    rfl

/-- Grouping by a list of distinct keys that covers every row partitions the
sum. -/
theorem qsum_groups {α : Type} (keyf : α → Option GKey) (g : α → ℚ)
    (ks : List GKey) (rows : List α)
    (hnodup : ks.Nodup)
    (hcover : ∀ r ∈ rows, ∃ v ∈ ks, keyf r = some v) :
    (ks.map fun v => qsum g (rows.filter fun r => keyf r == some v)).sum
      = qsum g rows := by
  induction ks generalizing rows with
  | nil =>
    cases rows with
    | nil => simp [qsum]
    | cons r rs =>
      obtain ⟨v, hv, _⟩ := hcover r (by simp)
      exact absurd hv (List.not_mem_nil v)
  | cons v ks ih =>
    rw [List.map_cons, List.sum_cons]
    have hvk : v ∉ ks := (List.nodup_cons.mp hnodup).1
    have hnd : ks.Nodup := (List.nodup_cons.mp hnodup).2
    have hrw : ∀ w ∈ ks,
        rows.filter (fun r => keyf r == some w)
          = (rows.filter fun r => !(keyf r == some v)).filter
              (fun r => keyf r == some w) := by
      intro w hw
      have hne : w ≠ v := fun hc => hvk (hc ▸ hw)
      rw [filter_key_of_ne keyf hne]
    have hmap : (ks.map fun w => qsum g (rows.filter fun r => keyf r == some w))
        = ks.map fun w => qsum g
            ((rows.filter fun r => !(keyf r == some v)).filter
              (fun r => keyf r == some w)) := by
      apply List.map_congr_left
      intro w hw
      rw [hrw w hw]
    have hcov2 : ∀ r ∈ rows.filter (fun r => !(keyf r == some v)),
        ∃ u ∈ ks, keyf r = some u := by
      intro r hr
      obtain ⟨u, hu, hku⟩ := hcover r (List.mem_of_mem_filter hr)
      rcases List.mem_cons.mp hu with rfl | hu2
      · have hne := List.of_mem_filter hr
        rw [hku] at hne
        simp at hne
      · exact ⟨u, hu2, hku⟩
    rw [hmap, ih (rows.filter fun r => !(keyf r == some v)) hnd hcov2]
    exact qsum_filter_not_add (fun r => keyf r == some v) g rows

theorem levelKeys_cover {α : Type} {cfg : TableCfg α} {d : Dim} {rows : List α}
    (hall : ∀ r ∈ rows, (cfg.key d r).isSome) :
    ∀ r ∈ rows, ∃ v ∈ levelKeys cfg d rows, cfg.key d r = some v := by
  intro r hr
  have hs := hall r hr
  cases hk : cfg.key d r with
  | none => rw [hk] at hs; simp at hs
  | some v =>
    refine ⟨v, ?_, rfl⟩
    unfold levelKeys
    rw [mem_dedupFO, List.mem_filterMap]
    exact ⟨r, by rw [List.mem_filter]; exact ⟨hr, by simp [hk]⟩, hk⟩

theorem sub_ne_nil_of_mem_levelKeys {α : Type} {cfg : TableCfg α} {d : Dim}
    {rows : List α} {v : GKey} (hv : v ∈ levelKeys cfg d rows) :
    rows.filter (fun r => cfg.key d r == some v) ≠ [] := by
  unfold levelKeys at hv
  rw [mem_dedupFO, List.mem_filterMap] at hv
  obtain ⟨r, hr, hk⟩ := hv
  intro hnil
  have : r ∈ rows.filter (fun r => cfg.key d r == some v) := by
    rw [List.mem_filter]
    exact ⟨List.mem_of_mem_filter hr, by simp [hk]⟩
  rw [hnil] at this
  exact absurd this (List.not_mem_nil r)

theorem buildLevel_cons_ne_nil {α : Type} {cfg : TableCfg α} {d : Dim}
    {rest : List Dim} {rows : List α}
    (hrows : rows ≠ []) (hall : ∀ r ∈ rows, (cfg.key d r).isSome) :
    buildLevel cfg (d :: rest) rows ≠ [] := by
  rw [buildLevel_cons]
  intro hnil
  have hlen := congrArg List.length hnil
  rw [show (sortNodes ((levelKeys cfg d rows).map (nodeFor cfg d rest rows))).length
      = ((levelKeys cfg d rows).map (nodeFor cfg d rest rows)).length from
    (List.mergeSort_perm _ _).length_eq]
    at hlen
  rw [List.length_map] at hlen
  cases rows with
  | nil => exact hrows rfl
  | cons r rs =>
    obtain ⟨v, hv, _⟩ := levelKeys_cover hall r (by simp)
    simp only [List.length_nil] at hlen
    rw [List.length_eq_zero.mp hlen] at hv
    exact absurd hv (List.not_mem_nil v)

/-- Conservation of (cent-precision) charges across the recursive rollup:
the leaf totals of `build_level` sum to the unrounded charge total of the
population. -/
theorem leafChargeSum_buildLevel {α : Type} (cfg : TableCfg α) (dims : List Dim) :
    ∀ rows : List α, dims ≠ [] →
      (∀ r ∈ rows, ∀ d ∈ dims, (cfg.key d r).isSome) →
      (∀ r ∈ rows, Cent (cfg.charges r)) →
      leafChargeSum (buildLevel cfg dims rows) = qsum cfg.charges rows := by
  induction dims with
  | nil => intro rows h; exact absurd rfl h
  | cons d rest ih =>
    intro rows _ hkeys hcent
    rw [buildLevel_cons, leafChargeSum_sortNodes, leafChargeSum_eq_sum_map,
      List.map_map]
    have hnode : ∀ v ∈ levelKeys cfg d rows,
        (nodeLeafCharge ∘ nodeFor cfg d rest rows) v
          = qsum cfg.charges (rows.filter fun r => cfg.key d r == some v) := by
      intro v hv
      have hsub : ∀ r ∈ rows.filter (fun r => cfg.key d r == some v), Cent (cfg.charges r) :=
        fun r hr => hcent r (List.mem_of_mem_filter hr)
      cases rest with
      | nil =>
        show nodeLeafCharge (nodeFor cfg d [] rows v) = _
        show nodeLeafCharge (MNode.mk v _ _ _ _ _ (buildLevel cfg [] _)) = _
        show round2 (qsum cfg.charges _) = _
        exact round2_cent (Cent.qsum hsub)
      | cons d2 rest2 =>
        have hne : buildLevel cfg (d2 :: rest2) (rows.filter fun r => cfg.key d r == some v) ≠ [] :=
          buildLevel_cons_ne_nil (sub_ne_nil_of_mem_levelKeys hv)
            (fun r hr => hkeys r (List.mem_of_mem_filter hr) d2 (by simp))
        have hchild : ∀ r ∈ rows.filter (fun r => cfg.key d r == some v),
            ∀ d3 ∈ d2 :: rest2, (cfg.key d3 r).isSome :=
          fun r hr d3 hd3 => hkeys r (List.mem_of_mem_filter hr) d3 (by simp [List.mem_cons.mp hd3])
        have hrec := ih (rows.filter fun r => cfg.key d r == some v) (by simp) hchild hsub
        cases hbl : buildLevel cfg (d2 :: rest2) (rows.filter fun r => cfg.key d r == some v) with
        | nil => exact absurd hbl hne
        | cons c cs =>
          show nodeLeafCharge (MNode.mk v _ _ _ _ _
            (buildLevel cfg (d2 :: rest2) (rows.filter fun r => cfg.key d r == some v))) = _
          rw [hbl]
          show leafChargeSum (c :: cs) = _
          rw [← hbl]
          exact hrec
    rw [List.map_congr_left hnode]
    exact qsum_groups (cfg.key d) cfg.charges _ rows
      (nodup_dedupFO _)
      (levelKeys_cover fun r hr => hkeys r hr d (by simp))

/-- Collection-rate invariant of every node, under cent-precision inputs. -/
theorem allCRInv_buildLevel {α : Type} (cfg : TableCfg α) (dims : List Dim) :
    ∀ rows : List α, (∀ r ∈ rows, Cent (cfg.charges r) ∧ Cent (cfg.payments r)) →
      allCRInv (buildLevel cfg dims rows) := by
  induction dims with
  | nil =>
    intro rows _
    show allCRInv []
    simp [allCRInv]
  | cons d rest ih =>
    intro rows hcent
    rw [allCRInv_iff_forall]
    intro n hn
    obtain ⟨v, hv, rfl⟩ := mem_buildLevel_cons.mp hn
    have hsub : ∀ r ∈ rows.filter (fun r => cfg.key d r == some v),
        Cent (cfg.charges r) ∧ Cent (cfg.payments r) :=
      fun r hr => hcent r (List.mem_of_mem_filter hr)
    constructor
    · show round2 (if 0 < qsum cfg.charges _ then _ else 0) = _
      have htc : Cent (qsum cfg.charges (rows.filter fun r => cfg.key d r == some v)) :=
        Cent.qsum fun r hr => (hsub r hr).1
      have htp : Cent (qsum cfg.payments (rows.filter fun r => cfg.key d r == some v)) :=
        Cent.qsum fun r hr => (hsub r hr).2
      show round2 _ = if 0 < (nodeFor cfg d rest rows v).total_charges then _ else 0
      have h1 : (nodeFor cfg d rest rows v).total_charges
          = qsum cfg.charges (rows.filter fun r => cfg.key d r == some v) := by
        show round2 _ = _
        exact round2_cent htc
      have h2 : (nodeFor cfg d rest rows v).total_payments
          = qsum cfg.payments (rows.filter fun r => cfg.key d r == some v) := by
        show round2 _ = _
        exact round2_cent htp
      rw [h1, h2]
      split_ifs with h
      · rfl
      · exact round2_zero
    · exact ih _ hsub

/-!
### Claim theorems over the dynamic matrix
-/

/-- C2: when `billing_subcategory` occurs anywhere in the dimension list the
whole query runs against the transaction table — the response does not
depend on the `procedure_summary` table at all — every node of every level
reports `avg_days_to_payment = None`, and every node counts distinct
procedure identifiers (recursively, per the ancestor-filtered row set),
including the global summary block's procedure count. -/
theorem claim2_transaction_table_switch (txs : List Tx) (sums sums2 : List Summary)
    (gb : List Dim) (dfrom dto : Option ℤ)
    (h : Dim.billing_subcategory ∈ gb) :
    get_dynamic_matrix txs sums gb dfrom dto = get_dynamic_matrix txs sums2 gb dfrom dto ∧
    allAvgNone (matrixData txs sums gb dfrom dto) ∧
    countsDistinct gb (txs.filter fun t => dateOk t.date_of_service dfrom dto)
      (matrixData txs sums gb dfrom dto) ∧
    (get_dynamic_matrix txs sums gb dfrom dto).map
        (fun res => res.summary.total_procedures)
      = some (dedupFO ((txs.filter fun t =>
          dateOk t.date_of_service dfrom dto).map Tx.procedure_id)).length := by
  have hne : gb ≠ [] := List.ne_nil_of_mem h
  constructor
  · unfold get_dynamic_matrix
    rw [if_neg hne, if_neg hne, if_pos h, if_pos h]
  refine ⟨?_, ?_, ?_⟩
  · unfold matrixData get_dynamic_matrix
    rw [if_neg hne, if_pos h]
    exact allAvgNone_buildLevel_tx gb _
  · unfold matrixData get_dynamic_matrix
    rw [if_neg hne, if_pos h]
    exact countsDistinct_buildLevel gb _
  · unfold get_dynamic_matrix
    rw [if_neg hne, if_pos h]
    rfl

theorem claim2_witness :
    (Dim.billing_subcategory ∈ [Dim.billing_subcategory, Dim.carrier]) ∧
    (get_dynamic_matrix [] [] [Dim.billing_subcategory, Dim.carrier] none none
        = get_dynamic_matrix [] [Summary.init "P1"] [Dim.billing_subcategory, Dim.carrier] none none ∧
      allAvgNone (matrixData [] [] [Dim.billing_subcategory, Dim.carrier] none none) ∧
      countsDistinct [Dim.billing_subcategory, Dim.carrier]
        (([] : List Tx).filter fun t => dateOk t.date_of_service none none)
        (matrixData [] [] [Dim.billing_subcategory, Dim.carrier] none none) ∧
      (get_dynamic_matrix [] [] [Dim.billing_subcategory, Dim.carrier] none none).map
          (fun res => res.summary.total_procedures)
        = some (dedupFO ((([] : List Tx).filter fun t =>
            dateOk t.date_of_service none none).map Tx.procedure_id)).length) :=
  ⟨by simp,
    claim2_transaction_table_switch [] [] [Summary.init "P1"]
      [Dim.billing_subcategory, Dim.carrier] none none (by simp)⟩

/-- C5: for a nonempty dimension list of length at most 4, when every record
of the date-filtered population (of whichever table the query runs against)
has a non-null value in every requested dimension and all charges are
cent-precision decimals, the leaf totals of the rollup sum exactly to the
global summary block's `total_charges`; and that summary block depends only
on the date-filtered population, not on the requested grouping (for any
other grouping resolved against the same table). -/
theorem claim5_leaf_conservation (txs : List Tx) (sums : List Summary)
    (gb : List Dim) (dfrom dto : Option ℤ)
    (hne : gb ≠ []) (hlen : gb.length ≤ 4)
    (hcT : ∀ t ∈ txs, Cent t.charges)
    (hcS : ∀ s ∈ sums, Cent s.total_charges)
    (hnnT : Dim.billing_subcategory ∈ gb →
      ∀ t ∈ txs.filter (fun t => dateOk t.date_of_service dfrom dto),
        ∀ d ∈ gb, (txKey d t).isSome)
    (hnnS : Dim.billing_subcategory ∉ gb →
      ∀ s ∈ sums.filter (fun s => dateOk s.date_of_service dfrom dto),
        ∀ d ∈ gb, (sumKey d s).isSome) :
    ∃ res, get_dynamic_matrix txs sums gb dfrom dto = some res ∧
      leafChargeSum res.data = res.summary.total_charges ∧
      ∀ gb2, gb2 ≠ [] →
        (Dim.billing_subcategory ∈ gb2 ↔ Dim.billing_subcategory ∈ gb) →
        matrixSummary txs sums gb2 dfrom dto = matrixSummary txs sums gb dfrom dto := by
  by_cases hbs : Dim.billing_subcategory ∈ gb
  · refine ⟨_, by unfold get_dynamic_matrix; rw [if_neg hne, if_pos hbs], ?_, ?_⟩
    · show leafChargeSum (buildLevel txCfg gb
        (txs.filter fun t => dateOk t.date_of_service dfrom dto)) = round2 _
      have hsubc : ∀ t ∈ txs.filter (fun t => dateOk t.date_of_service dfrom dto),
          Cent (txCfg.charges t) :=
        fun t ht => hcT t (List.mem_of_mem_filter ht)
      rw [leafChargeSum_buildLevel txCfg gb _ hne (hnnT hbs) hsubc]
      show qsum Tx.charges _ = round2 (qsum Tx.charges _)
      exact (round2_cent (Cent.qsum hsubc)).symm
    · intro gb2 hne2 hiff
      have hbs2 : Dim.billing_subcategory ∈ gb2 := hiff.mpr hbs
      unfold matrixSummary get_dynamic_matrix
      rw [if_neg hne2, if_neg hne, if_pos hbs2, if_pos hbs]
      rfl
  · refine ⟨_, by unfold get_dynamic_matrix; rw [if_neg hne, if_neg hbs], ?_, ?_⟩
    · show leafChargeSum (buildLevel sumCfg gb
        (sums.filter fun s => dateOk s.date_of_service dfrom dto)) = round2 _
      have hsubc : ∀ s ∈ sums.filter (fun s => dateOk s.date_of_service dfrom dto),
          Cent (sumCfg.charges s) :=
        fun s hs => hcS s (List.mem_of_mem_filter hs)
      rw [leafChargeSum_buildLevel sumCfg gb _ hne (hnnS hbs) hsubc]
      show qsum Summary.total_charges _ = round2 (qsum Summary.total_charges _)
      exact (round2_cent (Cent.qsum hsubc)).symm
    · intro gb2 hne2 hiff
      have hbs2 : Dim.billing_subcategory ∉ gb2 := fun hc => hbs (hiff.mp hc)
      unfold matrixSummary get_dynamic_matrix
      rw [if_neg hne2, if_neg hne, if_neg hbs2, if_neg hbs]
      rfl

theorem claim5_witness :
    (([Dim.procedure_id] : List Dim) ≠ [] ∧ ([Dim.procedure_id] : List Dim).length ≤ 4 ∧
      (∀ t ∈ ([] : List Tx), Cent t.charges) ∧
      (∀ s ∈ [mkSum "P1" 100 40], Cent s.total_charges) ∧
      (Dim.billing_subcategory ∈ [Dim.procedure_id] →
        ∀ t ∈ ([] : List Tx).filter (fun t => dateOk t.date_of_service none none),
          ∀ d ∈ [Dim.procedure_id], (txKey d t).isSome) ∧
      (Dim.billing_subcategory ∉ [Dim.procedure_id] →
        ∀ s ∈ [mkSum "P1" 100 40].filter (fun s => dateOk s.date_of_service none none),
          ∀ d ∈ [Dim.procedure_id], (sumKey d s).isSome)) ∧
    (∃ res, get_dynamic_matrix [] [mkSum "P1" 100 40] [Dim.procedure_id] none none = some res ∧
      leafChargeSum res.data = res.summary.total_charges ∧
      ∀ gb2, gb2 ≠ [] →
        (Dim.billing_subcategory ∈ gb2 ↔ Dim.billing_subcategory ∈ [Dim.procedure_id]) →
        matrixSummary [] [mkSum "P1" 100 40] gb2 none none
          = matrixSummary [] [mkSum "P1" 100 40] [Dim.procedure_id] none none) := by
  have h1 : ([Dim.procedure_id] : List Dim) ≠ [] := by simp
  have h2 : ([Dim.procedure_id] : List Dim).length ≤ 4 := by simp
  have h3 : ∀ t ∈ ([] : List Tx), Cent t.charges := by simp
  have h4 : ∀ s ∈ [mkSum "P1" 100 40], Cent s.total_charges := by
    intro s hs
    rw [List.mem_singleton] at hs
    subst hs
    show Cent (100 : ℚ)
    simpa using Cent.intCast 100
  have h5 : Dim.billing_subcategory ∈ [Dim.procedure_id] →
      ∀ t ∈ ([] : List Tx).filter (fun t => dateOk t.date_of_service none none),
        ∀ d ∈ [Dim.procedure_id], (txKey d t).isSome := by
    intro h
    simp at h
  have h6 : Dim.billing_subcategory ∉ [Dim.procedure_id] →
      ∀ s ∈ [mkSum "P1" 100 40].filter (fun s => dateOk s.date_of_service none none),
        ∀ d ∈ [Dim.procedure_id], (sumKey d s).isSome := by
    intro _ s _ d hd
    rw [List.mem_singleton] at hd
    subst hd
    rfl
  exact ⟨⟨h1, h2, h3, h4, h5, h6⟩,
    claim5_leaf_conservation [] [mkSum "P1" 100 40] [Dim.procedure_id] none none
      h1 h2 h3 h4 h5 h6⟩

theorem crInv_updateSummary (s₀ : Summary) (f : Tx) (r : List Tx) :
    crInv (updateSummary s₀ f r) := rfl

theorem mem_stepSummary_cases {df : List Tx} {st : List Summary} {pid : String}
    {s : Summary} (hs : s ∈ stepSummary df st pid) :
    s ∈ st ∨ ∃ s₀ f r, s = updateSummary s₀ f r := by
  unfold stepSummary at hs
  cases hg : groupRows pid df with
  | nil => rw [hg] at hs; exact Or.inl hs
  | cons first rest =>
    rw [hg] at hs
    have hs2 : s ∈ (if (st.find? (fun x => x.procedure_id == pid)).isSome = true then
        updateFirst (fun x => x.procedure_id == pid) (fun x => updateSummary x first rest) st
      else st ++ [updateSummary (Summary.init pid) first rest]) := hs
    clear hs
    split_ifs at hs2 with hex
    · rcases mem_updateFirst hs2 with h | ⟨s₀, _, _, rfl⟩
      · exact Or.inl h
      · exact Or.inr ⟨s₀, first, rest, rfl⟩
    · rcases List.mem_append.mp hs2 with h | h
      · exact Or.inl h
      · rcases List.mem_cons.mp h with rfl | h2
        · exact Or.inr ⟨Summary.init pid, first, rest, rfl⟩
        · exact absurd h2 (by simp)

theorem mem_buildSummaries_cases {df : List Tx} {st : List Summary} {s : Summary}
    (hs : s ∈ buildSummaries df st) :
    s ∈ st ∨ ∃ s₀ f r, s = updateSummary s₀ f r := by
  unfold buildSummaries at hs
  generalize hp : procIds df = pids at hs
  clear hp
  induction pids generalizing st with
  | nil => exact Or.inl hs
  | cons q qs ih =>
    rw [List.foldl_cons] at hs
    rcases ih hs with h | h
    · exact mem_stepSummary_cases h
    · exact Or.inr h

/-- C6: every collection rate the system reports — on each procedure summary
written by the aggregator (over a table whose rows already satisfy the
invariant) and on each node of the dynamic matrix (under cent-precision
inputs) — equals `round(total_payments / total_charges * 100, 2)` when the
row's `total_charges` is positive and `0` otherwise. -/
theorem claim6_collection_rate (df : List Tx) (st : List Summary)
    (hst : ∀ s ∈ st, crInv s)
    (txs : List Tx) (sums : List Summary) (gb : List Dim) (dfrom dto : Option ℤ)
    (hcT : ∀ t ∈ txs, Cent t.charges ∧ Cent t.total_payments)
    (hcS : ∀ s ∈ sums, Cent s.total_charges ∧ Cent s.total_payments) :
    (∀ s ∈ buildSummaries df st, crInv s) ∧
    allCRInv (matrixData txs sums gb dfrom dto) := by
  constructor
  · intro s hs
    rcases mem_buildSummaries_cases hs with h | ⟨s₀, f, r, rfl⟩
    · exact hst s h
    · exact crInv_updateSummary s₀ f r
  · by_cases hgb : gb = []
    · subst hgb
      unfold matrixData get_dynamic_matrix
      rw [if_pos rfl]
      show allCRInv []
      simp [allCRInv]
    · unfold matrixData get_dynamic_matrix
      rw [if_neg hgb]
      by_cases hbs : Dim.billing_subcategory ∈ gb
      · rw [if_pos hbs]
        show allCRInv (buildLevel txCfg gb _)
        exact allCRInv_buildLevel txCfg gb _
          (fun t ht => hcT t (List.mem_of_mem_filter ht))
      · rw [if_neg hbs]
        show allCRInv (buildLevel sumCfg gb _)
        exact allCRInv_buildLevel sumCfg gb _
          (fun s hs => hcS s (List.mem_of_mem_filter hs))

theorem claim6_witness :
    ((∀ s ∈ ([] : List Summary), crInv s) ∧
      (∀ t ∈ ([] : List Tx), Cent t.charges ∧ Cent t.total_payments) ∧
      (∀ s ∈ [mkSum "P1" 100 40], Cent s.total_charges ∧ Cent s.total_payments)) ∧
    ((∀ s ∈ buildSummaries [mkTx "P1" 100 40 0] [], crInv s) ∧
      allCRInv (matrixData [] [mkSum "P1" 100 40] [Dim.carrier] none none)) := by
  have h1 : ∀ s ∈ ([] : List Summary), crInv s := by simp
  have h2 : ∀ t ∈ ([] : List Tx), Cent t.charges ∧ Cent t.total_payments := by simp
  have h3 : ∀ s ∈ [mkSum "P1" 100 40], Cent s.total_charges ∧ Cent s.total_payments := by
    intro s hs
    rw [List.mem_singleton] at hs
    subst hs
    constructor
    · show Cent (100 : ℚ)
      simpa using Cent.intCast 100
    · show Cent (40 : ℚ)
      simpa using Cent.intCast 40
  exact ⟨⟨h1, h2, h3⟩,
    claim6_collection_rate [mkTx "P1" 100 40 0] [] h1
      [] [mkSum "P1" 100 40] [Dim.carrier] none none h2 h3⟩

/-!
### Recovery lemmas
-/

theorem windowPayments_mono (txs : List Tx) (pid : String) (dos today : ℤ)
    {d1 d2 : ℤ} (h : d1 ≤ d2) :
    windowPayments txs pid dos d1 today ≤ windowPayments txs pid dos d2 today := by
  unfold windowPayments
  apply qsum_filter_mono
  · intro t ht
    simp only [Bool.and_eq_true, decide_eq_true_eq] at ht ⊢
    refine ⟨⟨ht.1.1, ?_⟩, ht.2⟩
    cases hd : t.date_of_deposit with
    | none => rw [hd] at ht; simp at ht
    | some dep =>
      rw [hd] at ht
      simp only [decide_eq_true_eq] at ht ⊢
      have h1 := ht.1.2
      have h2 : min (dos + d1) today ≤ min (dos + d2) today :=
        min_le_min (by linarith) (le_refl today)
      linarith
  · intro t ht
    simp only [Bool.and_eq_true, decide_eq_true_eq] at ht
    linarith [ht.2]

theorem cohortWindowSum_mono (txs : List Tx) (procs : List Summary) (today : ℤ)
    {d1 d2 : ℤ} (h : d1 ≤ d2) :
    cohortWindowSum txs procs d1 today ≤ cohortWindowSum txs procs d2 today := by
  unfold cohortWindowSum
  induction procs with
  | nil => simp
  | cons p ps ih =>
    cases hd : p.date_of_service with
    | none => simpa [List.filterMap_cons, hd] using ih
    | some dos =>
      simp only [List.filterMap_cons, hd, Option.map_some, List.sum_cons]
      exact add_le_add (windowPayments_mono txs p.procedure_id dos today h) ih

theorem velocity_percent_mono (txs : List Tx) (procs : List Summary)
    (tc : ℚ) (today : ℤ) {d1 d2 : ℤ} (h : d1 ≤ d2) :
    (velocity txs procs d1 tc today).percent ≤ (velocity txs procs d2 tc today).percent := by
  unfold velocity
  apply round2_mono
  apply min_le_min _ (le_refl (100 : ℚ))
  by_cases htc : 0 < tc
  · rw [if_pos htc, if_pos htc]
    have hw := cohortWindowSum_mono txs procs today h
    gcongr
  · rw [if_neg htc, if_neg htc]

theorem velocity_percent_le_hundred (txs : List Tx) (procs : List Summary)
    (days : ℤ) (tc : ℚ) (today : ℤ) :
    (velocity txs procs days tc today).percent ≤ 100 := by
  unfold velocity
  exact round2_le_hundred (min_le_right _ _)

/-- C4: the four horizon percentages of `calculate_recovery_rates` are
monotone non-decreasing in the horizon, and capped at 100. -/
theorem claim4_recovery_monotone (txs : List Tx) (sums : List Summary)
    (dfrom dto : Option ℤ) (patientId : Option ℤ) (typeCode carrier : Option String)
    (today : ℤ) :
    (calculate_recovery_rates txs sums dfrom dto patientId typeCode carrier today).recovery_1_month.percent
      ≤ (calculate_recovery_rates txs sums dfrom dto patientId typeCode carrier today).recovery_3_month.percent ∧
    (calculate_recovery_rates txs sums dfrom dto patientId typeCode carrier today).recovery_3_month.percent
      ≤ (calculate_recovery_rates txs sums dfrom dto patientId typeCode carrier today).recovery_6_month.percent ∧
    (calculate_recovery_rates txs sums dfrom dto patientId typeCode carrier today).recovery_6_month.percent
      ≤ (calculate_recovery_rates txs sums dfrom dto patientId typeCode carrier today).recovery_12_month.percent ∧
    (calculate_recovery_rates txs sums dfrom dto patientId typeCode carrier today).recovery_12_month.percent
      ≤ 100 := by
  by_cases hnil : recoveryCohort sums dfrom dto patientId typeCode carrier = []
  · have heq : calculate_recovery_rates txs sums dfrom dto patientId typeCode carrier today
        = ⟨⟨0, 0, 0⟩, ⟨0, 0, 0⟩, ⟨0, 0, 0⟩, ⟨0, 0, 0⟩, 0, 0, 0⟩ := by
      simp only [calculate_recovery_rates]
      rw [if_pos hnil]
    rw [heq]
    refine ⟨le_refl _, le_refl _, le_refl _, by norm_num⟩
  · have heq : calculate_recovery_rates txs sums dfrom dto patientId typeCode carrier today
        = { recovery_1_month := velocity txs
              (recoveryCohort sums dfrom dto patientId typeCode carrier) 30
              (qsum Summary.total_charges (recoveryCohort sums dfrom dto patientId typeCode carrier)) today
            recovery_3_month := velocity txs
              (recoveryCohort sums dfrom dto patientId typeCode carrier) 90
              (qsum Summary.total_charges (recoveryCohort sums dfrom dto patientId typeCode carrier)) today
            recovery_6_month := velocity txs
              (recoveryCohort sums dfrom dto patientId typeCode carrier) 180
              (qsum Summary.total_charges (recoveryCohort sums dfrom dto patientId typeCode carrier)) today
            recovery_12_month := velocity txs
              (recoveryCohort sums dfrom dto patientId typeCode carrier) 365
              (qsum Summary.total_charges (recoveryCohort sums dfrom dto patientId typeCode carrier)) today
            overall_collection_rate := round2
              (if 0 < qsum Summary.total_charges (recoveryCohort sums dfrom dto patientId typeCode carrier)
                then qsum Summary.total_payments (recoveryCohort sums dfrom dto patientId typeCode carrier)
                  / qsum Summary.total_charges (recoveryCohort sums dfrom dto patientId typeCode carrier) * 100
                else 0)
            total_charges := round2
              (qsum Summary.total_charges (recoveryCohort sums dfrom dto patientId typeCode carrier))
            total_payments := round2
              (qsum Summary.total_payments (recoveryCohort sums dfrom dto patientId typeCode carrier)) } := by
      simp only [calculate_recovery_rates]
      rw [if_neg hnil]
    rw [heq]
    exact ⟨velocity_percent_mono txs _ _ today (by norm_num),
      velocity_percent_mono txs _ _ today (by norm_num),
      velocity_percent_mono txs _ _ today (by norm_num),
      velocity_percent_le_hundred txs _ 365 _ today⟩

theorem filterMap_erase_of_none {α β : Type} [DecidableEq α] (f : α → Option β)
    (l : List α) (a : α) (ha : f a = none) :
    (l.erase a).filterMap f = l.filterMap f := by
  induction l with
  | nil => rfl
  | cons x xs ih =>
    by_cases hxa : x = a
    · subst hxa
      rw [List.erase_cons_head, List.filterMap_cons, ha]
    · rw [List.erase_cons_tail (by simp [hxa])]
      rw [List.filterMap_cons, List.filterMap_cons]
      cases f x with
      | none => exact ih
      | some b => rw [ih]

theorem qsum_perm {α : Type} (g : α → ℚ) {l l2 : List α} (h : l.Perm l2) :
    qsum g l = qsum g l2 :=
  (h.map g).sum_eq

/-- C10: a cohort procedure with a null `date_of_service` keeps its
`total_charges` in every horizon's denominator and is counted in every
horizon's `procedures`, yet is skipped by the velocity loop, so each horizon
is computed exactly as if that procedure had recovered nothing. -/
theorem claim10_null_dos (txs : List Tx) (sums : List Summary) (dfrom dto : Option ℤ)
    (patientId : Option ℤ) (typeCode carrier : Option String) (today : ℤ) (p : Summary)
    (hp : p ∈ recoveryCohort sums dfrom dto patientId typeCode carrier)
    (hdos : p.date_of_service = none) :
    qsum Summary.total_charges (recoveryCohort sums dfrom dto patientId typeCode carrier)
      = p.total_charges + qsum Summary.total_charges
          ((recoveryCohort sums dfrom dto patientId typeCode carrier).erase p) ∧
    (recoveryCohort sums dfrom dto patientId typeCode carrier).length
      = ((recoveryCohort sums dfrom dto patientId typeCode carrier).erase p).length + 1 ∧
    (∀ days : ℤ,
      cohortWindowSum txs (recoveryCohort sums dfrom dto patientId typeCode carrier) days today
        = cohortWindowSum txs
            ((recoveryCohort sums dfrom dto patientId typeCode carrier).erase p) days today) ∧
    [(calculate_recovery_rates txs sums dfrom dto patientId typeCode carrier today).recovery_1_month,
      (calculate_recovery_rates txs sums dfrom dto patientId typeCode carrier today).recovery_3_month,
      (calculate_recovery_rates txs sums dfrom dto patientId typeCode carrier today).recovery_6_month,
      (calculate_recovery_rates txs sums dfrom dto patientId typeCode carrier today).recovery_12_month]
      = [(30 : ℤ), 90, 180, 365].map fun d =>
          { percent := round2 (min
              (if 0 < qsum Summary.total_charges (recoveryCohort sums dfrom dto patientId typeCode carrier)
                then cohortWindowSum txs
                    ((recoveryCohort sums dfrom dto patientId typeCode carrier).erase p) d today
                  / qsum Summary.total_charges (recoveryCohort sums dfrom dto patientId typeCode carrier) * 100
                else 0) 100)
            amount := round2 (cohortWindowSum txs
              ((recoveryCohort sums dfrom dto patientId typeCode carrier).erase p) d today)
            procedures := (recoveryCohort sums dfrom dto patientId typeCode carrier).length } := by
  have hperm := List.perm_cons_erase hp
  have h1 : qsum Summary.total_charges (recoveryCohort sums dfrom dto patientId typeCode carrier)
      = p.total_charges + qsum Summary.total_charges
          ((recoveryCohort sums dfrom dto patientId typeCode carrier).erase p) := by
    rw [qsum_perm Summary.total_charges hperm, qsum_cons]
  have h2 : (recoveryCohort sums dfrom dto patientId typeCode carrier).length
      = ((recoveryCohort sums dfrom dto patientId typeCode carrier).erase p).length + 1 :=
    hperm.length_eq
  have h3 : ∀ days : ℤ,
      cohortWindowSum txs (recoveryCohort sums dfrom dto patientId typeCode carrier) days today
        = cohortWindowSum txs
            ((recoveryCohort sums dfrom dto patientId typeCode carrier).erase p) days today := by
    intro days
    unfold cohortWindowSum
    rw [filterMap_erase_of_none _ _ p (by rw [hdos]; rfl)]
  have hnil : recoveryCohort sums dfrom dto patientId typeCode carrier ≠ [] :=
    List.ne_nil_of_mem hp
  have heq : calculate_recovery_rates txs sums dfrom dto patientId typeCode carrier today
      = { recovery_1_month := velocity txs
            (recoveryCohort sums dfrom dto patientId typeCode carrier) 30
            (qsum Summary.total_charges (recoveryCohort sums dfrom dto patientId typeCode carrier)) today
          recovery_3_month := velocity txs
            (recoveryCohort sums dfrom dto patientId typeCode carrier) 90
            (qsum Summary.total_charges (recoveryCohort sums dfrom dto patientId typeCode carrier)) today
          recovery_6_month := velocity txs
            (recoveryCohort sums dfrom dto patientId typeCode carrier) 180
            (qsum Summary.total_charges (recoveryCohort sums dfrom dto patientId typeCode carrier)) today
          recovery_12_month := velocity txs
            (recoveryCohort sums dfrom dto patientId typeCode carrier) 365
            (qsum Summary.total_charges (recoveryCohort sums dfrom dto patientId typeCode carrier)) today
          overall_collection_rate := round2
            (if 0 < qsum Summary.total_charges (recoveryCohort sums dfrom dto patientId typeCode carrier)
              then qsum Summary.total_payments (recoveryCohort sums dfrom dto patientId typeCode carrier)
                / qsum Summary.total_charges (recoveryCohort sums dfrom dto patientId typeCode carrier) * 100
              else 0)
          total_charges := round2
            (qsum Summary.total_charges (recoveryCohort sums dfrom dto patientId typeCode carrier))
          total_payments := round2
            (qsum Summary.total_payments (recoveryCohort sums dfrom dto patientId typeCode carrier)) } := by
    simp only [calculate_recovery_rates]
    rw [if_neg hnil]
  refine ⟨h1, h2, h3, ?_⟩
  rw [heq]
  simp only [List.map_cons, List.map_nil]
  have hv : ∀ d : ℤ, velocity txs (recoveryCohort sums dfrom dto patientId typeCode carrier) d
      (qsum Summary.total_charges (recoveryCohort sums dfrom dto patientId typeCode carrier)) today
      = { percent := round2 (min
            (if 0 < qsum Summary.total_charges (recoveryCohort sums dfrom dto patientId typeCode carrier)
              then cohortWindowSum txs
                  ((recoveryCohort sums dfrom dto patientId typeCode carrier).erase p) d today
                / qsum Summary.total_charges (recoveryCohort sums dfrom dto patientId typeCode carrier) * 100
              else 0) 100)
          amount := round2 (cohortWindowSum txs
            ((recoveryCohort sums dfrom dto patientId typeCode carrier).erase p) d today)
          procedures := (recoveryCohort sums dfrom dto patientId typeCode carrier).length } := by
    intro d
    unfold velocity
    rw [h3 d]
  rw [hv 30, hv 90, hv 180, hv 365]

theorem claim10_witness :
    (mkSum "P1" 100 40 ∈ recoveryCohort [mkSum "P1" 100 40] none none none none none) ∧
    (mkSum "P1" 100 40).date_of_service = none ∧
    qsum Summary.total_charges (recoveryCohort [mkSum "P1" 100 40] none none none none none)
      = (mkSum "P1" 100 40).total_charges
        + qsum Summary.total_charges
            ((recoveryCohort [mkSum "P1" 100 40] none none none none none).erase
              (mkSum "P1" 100 40)) ∧
    (recoveryCohort [mkSum "P1" 100 40] none none none none none).length
      = ((recoveryCohort [mkSum "P1" 100 40] none none none none none).erase
          (mkSum "P1" 100 40)).length + 1 := by
  have hp : mkSum "P1" 100 40 ∈ recoveryCohort [mkSum "P1" 100 40] none none none none none :=
    List.mem_filter.mpr ⟨List.mem_singleton.mpr rfl, rfl⟩
  have hdos : (mkSum "P1" 100 40).date_of_service = none := rfl
  have h := claim10_null_dos [] [mkSum "P1" 100 40] none none none none none 0
    (mkSum "P1" 100 40) hp hdos
  exact ⟨hp, hdos, h.1, h.2.1⟩

/-- C9: for every nonempty filtered population the reported median is the
element at index `⌊n/2⌋` (0-based) of the ascending-sorted days list — the
upper-middle element for even `n`, never the average of the two middle
elements; in particular over `[10, 20, 30, 200]` the median is `30`
(and not the two-middle average `25`). -/
theorem claim9_median_rule :
    (∀ (sums : List Summary) (dfrom dto : Option ℤ) (patientId : Option ℤ)
        (typeCode carrier : Option String),
      distRows sums dfrom dto patientId typeCode carrier ≠ [] →
      ∃ r, get_days_to_payment_distribution sums dfrom dto patientId typeCode carrier = some r ∧
        r.median_days
          = (sortInt ((distRows sums dfrom dto patientId typeCode carrier).filterMap
              Summary.days_to_first_payment)).getD
            ((sortInt ((distRows sums dfrom dto patientId typeCode carrier).filterMap
              Summary.days_to_first_payment)).length / 2) 0) ∧
    (get_days_to_payment_distribution
        [mkSumDays "A" 10, mkSumDays "B" 20, mkSumDays "C" 30, mkSumDays "D" 200]
        none none none none none).map DistResult.median_days = some 30 ∧
    (30 : ℤ) ≠ (10 + 20 + 30 + 200) / 4 ∧ (30 : ℤ) ≠ (20 + 30) / 2 := by
  refine ⟨?_, ?_, by norm_num, by norm_num⟩
  · intro sums dfrom dto patientId typeCode carrier hne
    unfold get_days_to_payment_distribution
    cases hr : distRows sums dfrom dto patientId typeCode carrier with
    | nil => exact absurd hr hne
    | cons r rs => exact ⟨_, rfl, rfl⟩
  · norm_num [get_days_to_payment_distribution, distRows, mkSumDays, Summary.init,
      truthyI, truthyS, List.filter, List.filterMap, sortInt, insertInt,
      show ∀ d : Option ℤ, dateOk d none none = true from fun _ => rfl]

theorem claim9_witness :
    (distRows [mkSumDays "A" 10, mkSumDays "B" 20, mkSumDays "C" 30, mkSumDays "D" 200]
        none none none none none ≠ []) ∧
    (∃ r, get_days_to_payment_distribution
        [mkSumDays "A" 10, mkSumDays "B" 20, mkSumDays "C" 30, mkSumDays "D" 200]
        none none none none none = some r ∧
      r.median_days
        = (sortInt ((distRows
            [mkSumDays "A" 10, mkSumDays "B" 20, mkSumDays "C" 30, mkSumDays "D" 200]
            none none none none none).filterMap Summary.days_to_first_payment)).getD
          ((sortInt ((distRows
            [mkSumDays "A" 10, mkSumDays "B" 20, mkSumDays "C" 30, mkSumDays "D" 200]
            none none none none none).filterMap Summary.days_to_first_payment)).length / 2) 0) := by
  have hne : distRows [mkSumDays "A" 10, mkSumDays "B" 20, mkSumDays "C" 30, mkSumDays "D" 200]
      none none none none none ≠ [] := by
    norm_num [distRows, mkSumDays, Summary.init, truthyI, truthyS, List.filter,
      show ∀ d : Option ℤ, dateOk d none none = true from fun _ => rfl]
    exact List.cons_ne_nil _ _
  exact ⟨hne, claim9_median_rule.1
    [mkSumDays "A" 10, mkSumDays "B" 20, mkSumDays "C" 30, mkSumDays "D" 200]
    none none none none none hne⟩

/-!
## Flat grouped endpoints (`get_by_surgery_type`, `get_by_insurance`,
`get_by_billing_category`)
-/

theorem round2_int (n : ℤ) : round2 ((n : ℚ)) = (n : ℚ) :=
  round2_cent (Cent.intCast n)

theorem mem_sortByCharges {α : Type} {f : α → ℚ} {l : List α} {a : α} :
    a ∈ sortByCharges f l ↔ a ∈ l :=
  (List.mergeSort_perm l _).mem_iff

theorem pairwise_sortByCharges {α : Type} (f : α → ℚ) (l : List α) :
    (sortByCharges f l).Pairwise fun a b => f b ≤ f a := by
  have h := @List.sorted_mergeSort α
    (fun a b : α => decide (f b ≤ f a))
    (fun a b c hab hbc => by
      simp only [decide_eq_true_eq] at *
      linarith)
    (fun a b => by
      simp only [Bool.or_eq_true, decide_eq_true_eq]
      exact le_total (f b) (f a))
    l
  exact h.imp fun hab => by simpa using hab

/-!
### C8: sort order
-/

/-- C8 (amended): descending-by-total-charges ordering holds for the flat
insurance summary, at every level of the three fixed matrices, and at every
level of the dynamic matrix. -/
theorem claim8_sorted_descending :
    (∀ (sums : List Summary) (dfrom dto : Option ℤ) (patientId : Option ℤ)
        (typeCode : Option String),
      (get_by_insurance sums dfrom dto patientId typeCode).Pairwise
        fun a b => b.total_charges ≤ a.total_charges) ∧
    (∀ (sums : List Summary) (txs : List Tx) (dfrom dto : Option ℤ),
      ((get_surgery_insurance_matrix sums txs dfrom dto).Pairwise
        fun a b => b.total_charges ≤ a.total_charges) ∧
      ∀ t ∈ get_surgery_insurance_matrix sums txs dfrom dto,
        (t.carriers.Pairwise fun a b => b.total_charges ≤ a.total_charges) ∧
        ∀ c ∈ t.carriers,
          c.billing_categories.Pairwise fun a b => b.charges ≤ a.charges) ∧
    (∀ (sums : List Summary) (dfrom dto : Option ℤ),
      ((get_patient_surgery_insurance_matrix sums dfrom dto).Pairwise
        fun a b => b.total_charges ≤ a.total_charges) ∧
      ∀ p ∈ get_patient_surgery_insurance_matrix sums dfrom dto,
        (p.surgery_types.Pairwise fun a b => b.total_charges ≤ a.total_charges) ∧
        ∀ t ∈ p.surgery_types,
          t.carriers.Pairwise fun a b => b.total_charges ≤ a.total_charges) ∧
    (∀ (sums : List Summary) (dfrom dto : Option ℤ),
      ((get_insurance_surgery_patient_matrix sums dfrom dto).Pairwise
        fun a b => b.total_charges ≤ a.total_charges) ∧
      ∀ c ∈ get_insurance_surgery_patient_matrix sums dfrom dto,
        (c.surgery_types.Pairwise fun a b => b.total_charges ≤ a.total_charges) ∧
        ∀ t ∈ c.surgery_types,
          t.patients.Pairwise fun a b => b.total_charges ≤ a.total_charges) ∧
    (∀ (txs : List Tx) (sums : List Summary) (gb : List Dim) (dfrom dto : Option ℤ),
      levelsSorted (matrixData txs sums gb dfrom dto)) := by
  refine ⟨?_, ?_, ?_, ?_, ?_⟩
  · intro sums dfrom dto patientId typeCode
    exact pairwise_sortByCharges _ _
  · intro sums txs dfrom dto
    refine ⟨pairwise_sortByCharges _ _, ?_⟩
    intro t ht
    have ht2 := mem_sortByCharges.mp ht
    rw [List.mem_map] at ht2
    obtain ⟨tc, _, rfl⟩ := ht2
    refine ⟨pairwise_sortByCharges _ _, ?_⟩
    intro c hc
    have hc2 := mem_sortByCharges.mp hc
    rw [List.mem_map] at hc2
    obtain ⟨cn, _, rfl⟩ := hc2
    exact pairwise_sortByCharges _ _
  · intro sums dfrom dto
    refine ⟨pairwise_sortByCharges _ _, ?_⟩
    intro p hp
    have hp2 := mem_sortByCharges.mp hp
    rw [List.mem_map] at hp2
    obtain ⟨chart, _, rfl⟩ := hp2
    refine ⟨pairwise_sortByCharges _ _, ?_⟩
    intro t ht
    have ht2 := mem_sortByCharges.mp ht
    rw [List.mem_map] at ht2
    obtain ⟨tcode, _, rfl⟩ := ht2
    exact pairwise_sortByCharges _ _
  · intro sums dfrom dto
    refine ⟨pairwise_sortByCharges _ _, ?_⟩
    intro c hc
    have hc2 := mem_sortByCharges.mp hc
    rw [List.mem_map] at hc2
    obtain ⟨cn, _, rfl⟩ := hc2
    refine ⟨pairwise_sortByCharges _ _, ?_⟩
    intro t ht
    have ht2 := mem_sortByCharges.mp ht
    rw [List.mem_map] at ht2
    obtain ⟨tcode, _, rfl⟩ := ht2
    exact pairwise_sortByCharges _ _
  · intro txs sums gb dfrom dto
    by_cases hgb : gb = []
    · subst hgb
      unfold matrixData get_dynamic_matrix
      rw [if_pos rfl]
      exact ⟨List.Pairwise.nil, by simp [deepSorted]⟩
    · unfold matrixData get_dynamic_matrix
      rw [if_neg hgb]
      by_cases hbs : Dim.billing_subcategory ∈ gb
      · rw [if_pos hbs]
        exact levelsSorted_buildLevel txCfg gb _
      · rw [if_neg hbs]
        exact levelsSorted_buildLevel sumCfg gb _

theorem claim8_witness :
    ((get_by_insurance [mkSumType "A" "T1" 100] none none none none).Pairwise
      fun a b => b.total_charges ≤ a.total_charges) ∧
    levelsSorted (matrixData [] [mkSumType "A" "T1" 100] [Dim.surgery_type] none none) :=
  ⟨claim8_sorted_descending.1 [mkSumType "A" "T1" 100] none none none none,
    claim8_sorted_descending.2.2.2.2 [] [mkSumType "A" "T1" 100] [Dim.surgery_type] none none⟩

/-- C8 (counterexample): `get_by_surgery_type` and `get_by_billing_category`
apply no sort — with two groups whose charges arrive ascending (100 then
200), the flat grouped summaries are not in descending order of total
charges. -/
theorem claim8_counterexample :
    ¬ ((get_by_surgery_type [mkSumType "A" "T1" 100, mkSumType "B" "T2" 200]
          none none none none).Pairwise
        fun a b => b.total_charges ≤ a.total_charges) ∧
    ¬ ((get_by_billing_category [mkTxBC "P1" "C1" 100, mkTxBC "P2" "C2" 200]
          none none none none none).Pairwise
        fun a b => b.total_charges ≤ a.total_charges) := by
  have h100 : round2 (100 : ℚ) = 100 := by simpa using round2_int 100
  have h200 : round2 (200 : ℚ) = 200 := by simpa using round2_int 200
  constructor
  · have hlist : get_by_surgery_type [mkSumType "A" "T1" 100, mkSumType "B" "T2" 200]
        none none none none
        = [⟨some "T1", none, 1, 100, 0, 0, none⟩, ⟨some "T2", none, 1, 200, 0, 0, none⟩] := by
      norm_num [get_by_surgery_type, dedupFO, dedupFOAux, mkSumType, Summary.init,
        truthyI, truthyS, List.filter, List.map, qsum, avgDaysTruthy,
        show ∀ d : Option ℤ, dateOk d none none = true from fun _ => rfl,
        h100, h200, round2_zero,
        show ((some "T1", (none : Option String))
          == ((some "T1" : Option String), (none : Option String))) = true from by decide,
        show ((some "T2", (none : Option String))
          == ((some "T1" : Option String), (none : Option String))) = false from by decide,
        show ((some "T1", (none : Option String))
          == ((some "T2" : Option String), (none : Option String))) = false from by decide,
        show ((some "T2", (none : Option String))
          == ((some "T2" : Option String), (none : Option String))) = true from by decide]
    rw [hlist]
    rw [List.pairwise_cons]
    intro h
    have := h.1 _ (List.mem_singleton.mpr rfl)
    norm_num at this
  · have hlist : get_by_billing_category [mkTxBC "P1" "C1" 100, mkTxBC "P2" "C2" 200]
        none none none none none
        = [⟨"C1", none, 100, 0, 0⟩, ⟨"C2", none, 200, 0, 0⟩] := by
      norm_num [get_by_billing_category, dedupFO, dedupFOAux, mkTxBC, mkTx,
        truthyI, truthyS, List.filter, List.map, List.filterMap, qsum,
        show ∀ d : Option ℤ, dateOk d none none = true from fun _ => rfl,
        h100, h200, round2_zero,
        show (("C1", (none : Option String))
          == (("C1" : String), (none : Option String))) = true from by decide,
        show (("C2", (none : Option String))
          == (("C1" : String), (none : Option String))) = false from by decide,
        show (("C1", (none : Option String))
          == (("C2" : String), (none : Option String))) = false from by decide,
        show (("C2", (none : Option String))
          == (("C2" : String), (none : Option String))) = true from by decide]
    rw [hlist]
    rw [List.pairwise_cons]
    intro h
    have := h.1 _ (List.mem_singleton.mpr rfl)
    norm_num at this

theorem saveTxs_spec (rows : List (Except String Tx)) :
    ∀ (c : ℕ) (st : DBSt),
      (∀ e, (splitAtErr rows).2 = some e →
        ∃ st2, saveTxs rows c st = .error (e, st2) ∧
          st2.committed ++ st2.pending
            = (st.committed ++ st.pending) ++ (splitAtErr rows).1) ∧
      ((splitAtErr rows).2 = none →
        saveTxs rows c st
          = .ok (c + rows.length,
              ⟨(st.committed ++ st.pending) ++ (splitAtErr rows).1, []⟩)) := by
  induction rows with
  | nil =>
    intro c st
    constructor
    · intro e he
      simp [splitAtErr] at he
    · intro _
      show Except.ok (c, commitDB st) = _
      simp [commitDB, splitAtErr]
  | cons row rows ih =>
    intro c st
    cases row with
    | error e2 =>
      constructor
      · intro e he
        have he2 : e2 = e := by simpa [splitAtErr] using he
        subst he2
        exact ⟨st, rfl, by simp [splitAtErr]⟩
      · intro hnone
        simp [splitAtErr] at hnone
    | ok t =>
      have hflat : ((if (c + 1) % 500 = 0 then commitDB (addTx st t) else addTx st t).committed
            ++ (if (c + 1) % 500 = 0 then commitDB (addTx st t) else addTx st t).pending)
          = (st.committed ++ st.pending) ++ [t] := by
        split_ifs <;> simp [commitDB, addTx]
      have hstep : saveTxs (Except.ok t :: rows) c st
          = saveTxs rows (c + 1)
              (if (c + 1) % 500 = 0 then commitDB (addTx st t) else addTx st t) := rfl
      have hsplit1 : (splitAtErr (Except.ok t :: rows)).1 = t :: (splitAtErr rows).1 := rfl
      have hsplit2 : (splitAtErr (Except.ok t :: rows)).2 = (splitAtErr rows).2 := rfl
      constructor
      · intro e he
        rw [hsplit2] at he
        obtain ⟨st2, hrun, hst2⟩ := (ih (c + 1)
          (if (c + 1) % 500 = 0 then commitDB (addTx st t) else addTx st t)).1 e he
        refine ⟨st2, by rw [hstep, hrun], ?_⟩
        rw [hst2, hflat, hsplit1]
        simp
      · intro hnone
        rw [hsplit2] at hnone
        have hrun := (ih (c + 1)
          (if (c + 1) % 500 = 0 then commitDB (addTx st t) else addTx st t)).2 hnone
        rw [hstep, hrun, hflat, hsplit1]
        have hlen : c + 1 + rows.length = c + (rows.length + 1) := by omega
        rw [hlen]
        have happ : ((st.committed ++ st.pending) ++ [t]) ++ (splitAtErr rows).1
            = (st.committed ++ st.pending) ++ (t :: (splitAtErr rows).1) := by simp
        rw [happ]
        rfl

/-- C7 (amended): an exception while converting/saving a row aborts the
aborted with the cause surfaced to the caller, but the Transaction
Store is left holding exactly the rows that preceded the failure (full
500-row batches committed during the save phase plus the pending partial
batch flushed by the failure handler's bookkeeping commit); only a fully
successful import commits all rows.  The store is empty after a failure only
when the failing row was the file's first. -/
theorem claim7_abort_semantics (rows : List (Except String Tx)) (st : DBSt) :
    (∀ e, (splitAtErr rows).2 = some e →
      upload_file rows st
        = (.error e, ⟨(st.committed ++ st.pending) ++ (splitAtErr rows).1, []⟩)) ∧
    ((splitAtErr rows).2 = none →
      upload_file rows st
        = (.ok rows.length, ⟨(st.committed ++ st.pending) ++ (splitAtErr rows).1, []⟩)) := by
  constructor
  · intro e he
    obtain ⟨st2, hrun, hst2⟩ := (saveTxs_spec rows 0 st).1 e he
    unfold upload_file
    rw [hrun]
    show (Except.error e, commitDB st2) = _
    rw [show commitDB st2 = ⟨st2.committed ++ st2.pending, []⟩ from rfl, hst2]
  · intro hnone
    have hrun := (saveTxs_spec rows 0 st).2 hnone
    unfold upload_file
    rw [hrun]
    simp

/-- C7 (counterexample): a two-row file whose second row fails conversion is
aborted with the cause surfaced — but the Transaction Store ends up
containing the file's first row: the import is not atomic. -/
theorem claim7_counterexample :
    upload_file [Except.ok (mkTx "P1" 100 0 0), Except.error "bad charges cell"] ⟨[], []⟩
      = (Except.error "bad charges cell", ⟨[mkTx "P1" 100 0 0], []⟩) ∧
    (⟨[mkTx "P1" 100 0 0], []⟩ : DBSt).committed ≠ [] := by
  constructor
  · rfl
  · exact List.cons_ne_nil _ _

theorem claim7_witness :
    ((splitAtErr [Except.ok (mkTx "P1" 100 0 0), Except.error "boom"]).2 = some "boom") ∧
    upload_file [Except.ok (mkTx "P1" 100 0 0), Except.error "boom"] ⟨[], []⟩
      = (.error "boom",
          ⟨(([] : List Tx) ++ ([] : List Tx))
            ++ (splitAtErr [Except.ok (mkTx "P1" 100 0 0), Except.error "boom"]).1, []⟩) :=
  ⟨rfl, (claim7_abort_semantics
      [Except.ok (mkTx "P1" 100 0 0), Except.error "boom"] ⟨[], []⟩).1 "boom" rfl⟩

end Findata

